import Mathlib

/-!
Verification of the tournament engine (single / double elimination, round robin,
Swiss, free-for-all) against its natural-language specification.

The TypeScript sources are shallowly embedded:
* participant ids are opaque strings in the source and are modelled as `Nat`;
* display names are strings; `String.prototype.localeCompare` (default locale,
  ASCII names) is modelled as lexicographic comparison of the character lists;
* `Array.prototype.sort`, stable since ES2019, is modelled by the stable
  insertion sort `sortJS`;
* random UUID generation (`generateId`, used only for object identity) is
  modelled by a fresh-id counter threaded through each engine state;
* JavaScript `Map` / `Set` and plain objects are modelled by association lists
  and insertion-ordered lists;
* fallible operations (`throw`) return `Except String`;
* `Date` timestamps are modelled as `Nat` instants supplied explicitly.
-/

/-- Match status, `'pending' | 'in-progress' | 'completed'` from types.ts. -/
inductive MStatus where
  | pending
  | inProgress
  | completed
deriving DecidableEq, Repr

/-- MatchResult from types.ts: optional winner/loser, tie flag, per-participant
numeric score map, and a ranking list of (participantId, position). -/
structure MatchResultR where
  winnerId : Option Nat := none
  loserId : Option Nat := none
  isTie : Bool := false
  score : Option (List (Nat × Int)) := none
  rankings : List (Nat × Nat) := []
deriving DecidableEq, Repr

/-- Match from types.ts. -/
structure MatchR where
  id : Nat
  status : MStatus
  participantIds : List Nat
  result : Option MatchResultR := none
  round : Option Nat := none
  matchNumber : Option Nat := none
deriving DecidableEq, Repr

/-- Participant from types.ts (id, display name, 1-based seed). -/
structure ParticipantR where
  id : Nat
  name : String
  seed : Nat
deriving DecidableEq, Repr

instance {ε α : Type} [DecidableEq ε] [DecidableEq α] : DecidableEq (Except ε α) := by
  intro x y
  cases x <;> cases y
  case error.error a b =>
    exact if h : a = b then .isTrue (by rw [h]) else .isFalse (fun hc => h (Except.error.inj hc))
  case error.ok a b => exact .isFalse (fun hc => Except.noConfusion hc)
  case ok.error a b => exact .isFalse (fun hc => Except.noConfusion hc)
  case ok.ok a b =>
    exact if h : a = b then .isTrue (by rw [h]) else .isFalse (fun hc => h (Except.ok.inj hc))

/-- JavaScript `x || d` for an optional number `x` (both `undefined` and `0`
are falsy). -/
def jsOr (x : Option Nat) (d : Nat) : Nat :=
  match x with
  | none => d
  | some n => if n = 0 then d else n

/-- Lexicographic three-way comparison of character lists. -/
def charListCmp : List Char → List Char → Int
  | [], [] => 0
  | [], _ :: _ => -1
  | _ :: _, [] => 1
  | a :: as, b :: bs =>
      if a < b then -1 else if b < a then 1 else charListCmp as bs

/-- Model of `a.localeCompare(b)` (default locale, ASCII names). -/
def localeCompare (a b : String) : Int :=
  charListCmp a.data b.data

/-- Insert `a` into `l` before the first element strictly greater than `a`
(under the boolean preorder `le`); equal elements stay in front of `a`. -/
def insertLe {α : Type} (le : α → α → Bool) (a : α) : List α → List α
  | [] => [a]
  | b :: bs => if le a b && !(le b a) then a :: b :: bs else b :: insertLe le a bs

/-- Stable sort: model of `Array.prototype.sort` with comparator `cmp`,
where `le a b` means `cmp(a, b) <= 0`. -/
def sortJS {α : Type} (le : α → α → Bool) (l : List α) : List α :=
  l.foldl (fun acc a => insertLe le a acc) []

/-- Iteration count of `for (let i = 0; i < a/b; i++)` with natural `a`, `b`:
the number of naturals below the rational `a / b`. -/
def ceilDiv (a b : Nat) : Nat :=
  (a + b - 1) / b

/-- Auxiliary fuel-driven search for the least `r ≥ r0` with `n ≤ 2 ^ r`. -/
def ceilLog2Aux (n : Nat) : Nat → Nat → Nat
  | 0, r => r
  | fuel + 1, r => if n ≤ 2 ^ r then r else ceilLog2Aux n fuel (r + 1)

/-- Model of `Math.ceil(Math.log2(n))` for `n ≥ 1`: the least `r` with
`n ≤ 2 ^ r`. -/
def ceilLog2 (n : Nat) : Nat :=
  ceilLog2Aux n n 0

/-! ## Points-system resolver (pointsSystems.ts) -/

/-- PointsSystemType from types.ts; the `custom` payload carries the
`customPoints` array of the configuration. -/
inductive PointsSystemConfig where
  | f1
  | marioKart
  | linear
  | winnerTakesMost
  | custom (customPoints : Option (List Int))
deriving DecidableEq, Repr

/-- Fixed preset table of the `f1` system. -/
def f1Points : List Int := [25, 18, 15, 12, 10, 8, 6, 4, 2, 1]

/-- Fixed preset table of the `mario-kart` system. -/
def marioKartPoints : List Int := [15, 12, 10, 9, 8, 7, 6, 5, 4, 3, 2, 1]

/-- Truncate or zero-pad a fixed table to `playerCount` entries. -/
def fitTable (basePoints : List Int) (playerCount : Nat) : List Int :=
  if playerCount ≤ basePoints.length then
    basePoints.take playerCount
  else
    basePoints ++ List.replicate (playerCount - basePoints.length) 0

/-- generatePointsArray from pointsSystems.ts. -/
def generatePointsArray (config : PointsSystemConfig) (playerCount : Nat) :
    Except String (List Int) :=
  match config with
  | .f1 => .ok (fitTable f1Points playerCount)
  | .marioKart => .ok (fitTable marioKartPoints playerCount)
  | .linear =>
      .ok ((List.range playerCount).map (fun i => ((playerCount - i : Nat) : Int)))
  | .winnerTakesMost =>
      if playerCount = 1 then .ok [(playerCount : Int)]
      else
        .ok (((List.range playerCount).map
              (fun i => ((playerCount - i : Nat) : Int))).set 0 ((playerCount : Int) * 2))
  | .custom customPoints =>
      match customPoints with
      | none => .error "Custom points system requires customPoints array"
      | some ps =>
          if ps.length = 0 then .error "Custom points system requires customPoints array"
          else .ok (fitTable ps playerCount)

/-- getPointsForPlacement from pointsSystems.ts; `placement` is an integer
(1-indexed), out-of-range indices yield 0. -/
def getPointsForPlacement (config : PointsSystemConfig) (placement : Int)
    (totalPlayers : Nat) : Except String Int :=
  match generatePointsArray config totalPlayers with
  | .error e => .error e
  | .ok pointsArray =>
      let index : Int := placement - 1
      if index < 0 ∨ (pointsArray.length : Int) ≤ index then .ok 0
      else .ok (pointsArray.getD index.toNat 0)

/-- Whether a configuration is the custom system with a missing or empty
table (the only situation in which the resolver throws). -/
def customEmpty : PointsSystemConfig → Prop
  | .custom none => True
  | .custom (some ps) => ps.length = 0
  | _ => False

instance : DecidablePred customEmpty := by
  intro c
  unfold customEmpty
  cases c with
  | custom o => cases o <;> infer_instance
  | _ => infer_instance

/-! ## Single-elimination engine (SingleElimination.ts, head-to-head path) -/

/-- SingleEliminationOptions fields used by the head-to-head path. -/
structure SEOptions where
  thirdPlaceMatch : Bool
  tieBreakers : Bool := false
deriving DecidableEq, Repr

/-- State owned by a `SingleEliminationTournament` instance (head-to-head). -/
structure SEState where
  bracket : List MatchR
  thirdPlace : Option MatchR := none
  opts : SEOptions
  started : Bool := false
  completed : Bool := false
  nextId : Nat := 0
deriving DecidableEq, Repr

/-- An empty pending match with the given id, match number and round. -/
def mkEmptyMatch (id mn round : Nat) : MatchR :=
  { id := id, status := .pending, participantIds := [], round := some round,
    matchNumber := some mn }

/-- Rounds-and-counts trace of the `while` loop of `generateHeadToHeadBracket`
(SingleElimination.ts lines 90-121).  At round `j ≥ 2` the loop computes
`matchesInThisRound = T / 2^(j-1)` with `T = firstRoundMatches + byes`
(a JavaScript float; all values are dyadic rationals, represented here by the
numerator `T` and the exponent `j-1`).  The inner `for` creates
`⌈T / 2^(j-1)⌉` matches, and the loop breaks exactly when `T = 2^(j-1)`.
`fuel` bounds the iterations (the source loop does not terminate when `T`
is not a power of two, e.g. 2 participants). -/
def selLoopEntries (T : Nat) : Nat → Nat → List (Nat × Nat)
  | 0, _ => []
  | fuel + 1, j =>
      if j = 2 ∨ 0 < T then
        (j, ceilDiv T (2 ^ (j - 1))) ::
          (if T = 2 ^ (j - 1) then [] else selLoopEntries T fuel (j + 1))
      else []

/-- Materialise the loop trace as empty matches with consecutive ids. -/
def expandEntries : List (Nat × Nat) → Nat → List MatchR
  | [], _ => []
  | (j, c) :: rest, startIdx =>
      ((List.range c).map (fun i => mkEmptyMatch (startIdx + i) (startIdx + i + 1) j))
        ++ expandEntries rest (startIdx + c)

/-- Number of byes of an `n`-participant head-to-head bracket. -/
def seByes (n : Nat) : Nat := 2 ^ ceilLog2 n - n

/-- Number of round-1 matches of an `n`-participant head-to-head bracket. -/
def seFirstRoundMatches (n : Nat) : Nat := (n - seByes n) / 2

/-- The empty match skeleton built by `generateHeadToHeadBracket`
(before seeding). -/
def seSkeleton (n : Nat) : List MatchR :=
  (List.range (seFirstRoundMatches n)).map (fun i => mkEmptyMatch i (i + 1) 1)
    ++ expandEntries (selLoopEntries (seFirstRoundMatches n + seByes n) n 2)
        (seFirstRoundMatches n)

/-- Comparator of `seedBracket`: sort participants by seed ascending
(`(a.seed || 0) - (b.seed || 0)`). -/
def seedLe (a b : ParticipantR) : Bool := a.seed ≤ b.seed

/-- First-round pairing loop of `seedBracket`: match `i` receives
`playing[i]` versus `playing[playing.length - 1 - i]`. -/
def seedPairs (bracket : List MatchR) (playing : List ParticipantR) (r1 : Nat) :
    List MatchR :=
  (List.range r1).foldl
    (fun br i =>
      match playing[i]?, playing[playing.length - 1 - i]? with
      | some p1, some p2 =>
          List.modify (fun m => { m with participantIds := [p1.id, p2.id] }) i br
      | _, _ => br)
    bracket

/-- Bye-injection loop of `seedBracket`: bye participant `idx` is pushed into
the match at index `firstRoundMatches + idx / 2`, if that match exists. -/
def pushByes (bracket : List MatchR) (byeParticipants : List ParticipantR)
    (r1 : Nat) : List MatchR :=
  byeParticipants.enum.foldl
    (fun br ip =>
      let mi := r1 + ip.1 / 2
      if mi < br.length then
        List.modify (fun m => { m with participantIds := m.participantIds ++ [ip.2.id] })
          mi br
      else br)
    bracket

/-- generateHeadToHeadBracket followed by seedBracket: the bracket produced by
`start()` for participant list `ps`. -/
def seGenerateBracket (ps : List ParticipantR) : List MatchR :=
  let n := ps.length
  let seeded := sortJS seedLe ps
  let byeParticipants := seeded.take (seByes n)
  let playing := seeded.drop (seByes n)
  pushByes (seedPairs (seSkeleton n) playing (seFirstRoundMatches n))
    byeParticipants (seFirstRoundMatches n)

/-- SingleEliminationTournament.start() (head-to-head). -/
def seStart (ps : List ParticipantR) (opts : SEOptions) : Except String SEState :=
  if ps.length < 2 then .error "This tournament requires at least 2 participants"
  else
    .ok { bracket := seGenerateBracket ps, thirdPlace := none, opts := opts,
          started := true, completed := false, nextId := (seGenerateBracket ps).length }

/-- Push a participant into a match unless already present
(`if (!nextMatch.participantIds.includes(winnerId)) push`). -/
def pushIfAbsent (winnerId : Nat) (m : MatchR) : MatchR :=
  if winnerId ∈ m.participantIds then m
  else { m with participantIds := m.participantIds ++ [winnerId] }

/-- The loser slot of the final match: `finalMatch.participantIds.find(id => id !== winnerId)`. -/
def seFinalLoser (s : SEState) (matchIndex winnerId : Nat) : Option Nat :=
  ((s.bracket.getD matchIndex (mkEmptyMatch 0 0 0)).participantIds).find?
    (fun id => id != winnerId)

/-- The completed matches of the round preceding the final match. -/
def seSemiFinalMatches (s : SEState) (matchIndex : Nat) : List MatchR :=
  s.bracket.filter (fun m =>
    decide (m.round = some ((s.bracket.getD matchIndex (mkEmptyMatch 0 0 0)).round.getD 0 - 1))
      && decide (m.status = MStatus.completed))

/-- The non-winning participant of each semifinal. -/
def seSemiFinalLosers (s : SEState) (matchIndex : Nat) : List Nat :=
  (seSemiFinalMatches s matchIndex).filterMap
    (fun m => m.participantIds.find?
      (fun id => decide ((m.result.bind MatchResultR.winnerId) ≠ some id)))

/-- Third-place-match creation branch of `advanceWinnerHeadToHead` (runs on
completion of the final match when the option is enabled). -/
def seMakeThirdPlace (s : SEState) (matchIndex winnerId : Nat) : SEState :=
  if s.opts.thirdPlaceMatch ∧ s.thirdPlace = none then
    match seFinalLoser s matchIndex winnerId with
    | none => s
    | some _ =>
        if (seSemiFinalMatches s matchIndex).length = 2 ∧
            (seSemiFinalLosers s matchIndex).length = 2 then
          { s with
            thirdPlace := some (MatchR.mk s.nextId .pending (seSemiFinalLosers s matchIndex)
              none ((s.bracket.getD matchIndex (mkEmptyMatch 0 0 0)).round)
              (some (s.bracket.length + 1))),
            nextId := s.nextId + 1 }
        else s
  else s

/-- SingleEliminationTournament.advanceWinnerHeadToHead (lines 337-382). -/
def advanceWinnerHeadToHead (s : SEState) (matchIndex winnerId : Nat) : SEState :=
  let totalMatches := s.bracket.length
  let nextMatchIndex := totalMatches - (totalMatches - matchIndex) / 2
  if matchIndex = totalMatches - 1 then
    seMakeThirdPlace s matchIndex winnerId
  else
    if nextMatchIndex < totalMatches then
      { s with bracket := List.modify (pushIfAbsent winnerId) nextMatchIndex s.bracket }
    else s

/-! ## Double-elimination engine (FreeForAll.ts, DoubleEliminationTournament) -/

/-- Standing from types.ts (fields used by the embedded engines). -/
structure StandingR where
  participantId : Nat
  participantName : String
  rank : Nat
  wins : Nat
  losses : Nat
  ties : Nat
  points : Option Int := none
  gamesWon : Option Int := none
  gamesLost : Option Int := none
  matchesPlayed : Nat
  isEliminated : Option Bool := none
deriving DecidableEq, Repr

/-- DoubleEliminationOptions fields used by the engine. -/
structure DEOptions where
  splitStart : Bool
  tieBreakers : Bool := false
deriving DecidableEq, Repr

/-- State owned by a `DoubleEliminationTournament` instance.  The
`participantLosses` association list models the insertion-ordered
`Map<string, number>`. -/
structure DEState where
  participants : List ParticipantR
  winnersBracket : List MatchR
  losersBracket : List MatchR
  grandFinal : Option MatchR := none
  grandFinalReset : Option MatchR := none
  participantLosses : List (Nat × Nat) := []
  opts : DEOptions
  started : Bool := false
  completed : Bool := false
  nextId : Nat := 0
deriving DecidableEq, Repr

/-- `Map.set`: update in place if the key exists, else append. -/
def mapSet (m : List (Nat × Nat)) (k v : Nat) : List (Nat × Nat) :=
  match m with
  | [] => [(k, v)]
  | (k', v') :: rest => if k' = k then (k, v) :: rest else (k', v') :: mapSet rest k v

/-- `map.get(k) || 0`. -/
def mapGetD (m : List (Nat × Nat)) (k : Nat) : Nat :=
  (m.lookup k).getD 0

/-- Round-assignment chunks of `assignRoundsToMatches`: at round `r` the
source computes `matchesInRound = 2^(K - r)` with
`K = ceil(log2(total + 1))`; for `r > K` the JavaScript value is a fraction
below 1 and the inner `for` still assigns exactly one match per outer
iteration.  `fuel` bounds the iterations (the loop always terminates because
at least one match is assigned per iteration). -/
def assignRoundsGo (K : Nat) : Nat → Nat → List MatchR → List MatchR
  | 0, _, ms => ms
  | fuel + 1, r, ms =>
      if ms.isEmpty then [] else
        ((ms.take (if r ≤ K then 2 ^ (K - r) else 1)).map
            (fun m => { m with round := some r }))
          ++ assignRoundsGo K fuel (r + 1) (ms.drop (if r ≤ K then 2 ^ (K - r) else 1))

/-- DoubleEliminationTournament.assignRoundsToMatches. -/
def assignRoundsToMatches (bracket : List MatchR) : List MatchR :=
  assignRoundsGo (ceilLog2 (bracket.length + 1)) bracket.length 1 bracket

/-- DoubleEliminationTournament.generateWinnersBracket: empty matches,
first-round pairing `seed i` versus `seed (last - i)`, byes pushed into the
matches following the first round, then round numbers assigned.  The
first-round `for` iterates `i < playingParticipants.length / 2` (a JavaScript
float bound, hence `⌈len / 2⌉` iterations), and `firstRoundMatches` is
`Math.ceil(count / 2)`. -/
def deGenerateWinnersBracket (participants : List ParticipantR) (startId : Nat) :
    List MatchR :=
  let participantCount := participants.length
  let rounds := ceilLog2 participantCount
  let totalMatches := 2 ^ rounds - 1
  let empty := (List.range totalMatches).map
    (fun i => MatchR.mk (startId + i) .pending [] none none (some (i + 1)))
  let firstRoundMatches := (participantCount + 1) / 2
  let byes := 2 ^ rounds - participantCount
  let seeded := sortJS seedLe participants
  let byeParticipants := seeded.take byes
  let playing := seeded.drop byes
  assignRoundsToMatches
    (pushByes (seedPairs empty playing ((playing.length + 1) / 2))
      byeParticipants firstRoundMatches)

/-- DoubleEliminationTournament.generateInitialLosersBracket (split start):
pair consecutive losers-bracket starters; an odd leftover gets a completed
single-participant match. -/
def deInitialLosersBracket (participants : List ParticipantR) (startId : Nat) :
    List MatchR :=
  let pairs := (List.range (participants.length / 2)).map
    (fun i => MatchR.mk (startId + i) .pending
      ((([participants[2 * i]?, participants[2 * i + 1]?].filterMap id).map
        ParticipantR.id))
      none (some 1) none)
  if participants.length % 2 = 1 then
    match participants.getLast? with
    | some lastP =>
        pairs ++ [MatchR.mk (startId + participants.length / 2) .completed [lastP.id]
          (some { winnerId := some lastP.id }) (some 1) none]
    | none => pairs
  else pairs

/-- DoubleEliminationTournament.generateBrackets: split-start option moves the
bottom half of the field (by roster order) into the losers bracket with one
pre-assigned loss. -/
def deGenerateBrackets (ps : List ParticipantR) (opts : DEOptions) : DEState :=
  let splitActive := opts.splitStart ∧ 4 ≤ ps.length
  let splitIndex := ps.length / 2
  let winnersParticipants := if splitActive then ps.take splitIndex else ps
  let losersParticipants := if splitActive then ps.drop splitIndex else []
  let losses0 := ps.map (fun p => (p.id, 0))
  let losses1 := losersParticipants.foldl (fun m p => mapSet m p.id 1) losses0
  let wb := deGenerateWinnersBracket winnersParticipants 0
  let lb := deInitialLosersBracket losersParticipants wb.length
  { participants := ps, winnersBracket := wb, losersBracket := lb,
    grandFinal := none, grandFinalReset := none, participantLosses := losses1,
    opts := opts, started := true, completed := false,
    nextId := wb.length + lb.length }

/-- DoubleEliminationTournament.start(). -/
def deStart (ps : List ParticipantR) (opts : DEOptions) : Except String DEState :=
  if ps.length < 2 then .error "This tournament requires at least 2 participants"
  else .ok (deGenerateBrackets ps opts)

/-- DoubleEliminationTournament.getCurrentMatches: every 2-participant
uncompleted match of either bracket, plus the grand final and the reset match
when present, uncompleted and filled. -/
def deGetCurrentMatches (s : DEState) : List MatchR :=
  if s.started = false then [] else
    (s.winnersBracket.filter
        (fun m => decide (m.participantIds.length = 2) && decide (m.status ≠ .completed)))
      ++ (s.losersBracket.filter
        (fun m => decide (m.participantIds.length = 2) && decide (m.status ≠ .completed)))
      ++ (match s.grandFinal with
          | some gf =>
              if gf.status ≠ .completed ∧ gf.participantIds.length = 2 then [gf] else []
          | none => [])
      ++ (match s.grandFinalReset with
          | some r =>
              if r.status ≠ .completed ∧ r.participantIds.length = 2 then [r] else []
          | none => [])

/-- DoubleEliminationTournament.createGrandFinalIfNeeded. -/
def deCreateGrandFinalIfNeeded (s : DEState) : DEState :=
  match s.grandFinal with
  | some _ => s
  | none =>
      { s with
        grandFinal := some (MatchR.mk s.nextId .pending [] none none
          (some (s.winnersBracket.length + s.losersBracket.length + 1))),
        nextId := s.nextId + 1 }

/-- Push a participant into the grand final unless already present. -/
def dePushGrandFinal (s : DEState) (pid : Nat) : DEState :=
  match s.grandFinal with
  | some gf => { s with grandFinal := some (pushIfAbsent pid gf) }
  | none => s

/-- DoubleEliminationTournament.addToLosersBracket: first pending
losers-bracket match with an open slot, or a fresh single-participant match.
(The source can be reached with an `undefined` loser when a sub-2-participant
match is force-completed; such calls are outside the modelled valid-call
space and are modelled as a no-op on the participant-keyed structures.) -/
def deAddToLosersBracket (s : DEState) (pid? : Option Nat) : DEState :=
  match pid? with
  | none => s
  | some pid =>
      match s.losersBracket.findIdx?
          (fun m => decide (m.participantIds.length < 2) && decide (m.status = .pending)) with
      | some i =>
          { s with losersBracket := (List.modify
              (fun m => { m with participantIds := m.participantIds ++ [pid] }) i
              s.losersBracket) }
      | none =>
          { s with
            losersBracket := s.losersBracket
              ++ [MatchR.mk s.nextId .pending [pid] none none none],
            nextId := s.nextId + 1 }

/-- DoubleEliminationTournament.addToLosersBracketFinal: push into the last
losers-bracket match when it is pending with an open slot, else append a new
single-participant match. -/
def deAddToLosersBracketFinal (s : DEState) (pid? : Option Nat) : DEState :=
  match pid? with
  | none => s
  | some pid =>
      match s.losersBracket.getLast? with
      | some lastM =>
          if lastM.status = .pending ∧ lastM.participantIds.length < 2 then
            { s with losersBracket := (List.modify
                (fun m => { m with participantIds := m.participantIds ++ [pid] })
                (s.losersBracket.length - 1) s.losersBracket) }
          else
            { s with
              losersBracket := s.losersBracket
                ++ [MatchR.mk s.nextId .pending [pid] none none none],
              nextId := s.nextId + 1 }
      | none =>
          { s with
            losersBracket := s.losersBracket
              ++ [MatchR.mk s.nextId .pending [pid] none none none],
            nextId := s.nextId + 1 }

/-- DoubleEliminationTournament.handleWinnersBracketResult. -/
def deHandleWinnersBracketResult (s : DEState) (matchIndex winnerId : Nat)
    (loserId? : Option Nat) : DEState :=
  let totalMatches := s.winnersBracket.length
  if matchIndex = totalMatches - 1 then
    deAddToLosersBracketFinal
      (dePushGrandFinal (deCreateGrandFinalIfNeeded s) winnerId) loserId?
  else
    let nextMatchIndex := totalMatches - (totalMatches - matchIndex) / 2
    let s1 := if nextMatchIndex < totalMatches then
        { s with winnersBracket := (List.modify (pushIfAbsent winnerId) nextMatchIndex
            s.winnersBracket) }
      else s
    deAddToLosersBracket s1 loserId?

/-- DoubleEliminationTournament.handleLosersBracketResult (runs after the
played match is already marked completed). -/
def deHandleLosersBracketResult (s : DEState) (winnerId : Nat) : DEState :=
  if (s.losersBracket.filter (fun m => decide (m.status ≠ .completed))).isEmpty then
    dePushGrandFinal (deCreateGrandFinalIfNeeded s) winnerId
  else
    deAddToLosersBracket s (some winnerId)

/-- DoubleEliminationTournament.handleGrandFinalResult: the (updated) grand
final is `gf`; a reset match between the same two entrants is created exactly
when the winner's recorded loss count is 1, otherwise the tournament
completes. -/
def deHandleGrandFinalResult (s : DEState) (gf : MatchR) (winnerId : Nat)
    (loserId? : Option Nat) : DEState :=
  let winnerLosses := mapGetD s.participantLosses winnerId
  if winnerLosses = 1 then
    { s with
      grandFinalReset := some (MatchR.mk s.nextId .pending
        (winnerId :: loserId?.toList) none none (some (jsOr gf.matchNumber 0 + 1))),
      nextId := s.nextId + 1 }
  else
    { s with completed := true }

/-- Complete a match record: set the result and flip the status. -/
def deCompleteMatch (m : MatchR) (winnerId : Nat) : MatchR :=
  { m with result := some { winnerId := some winnerId }, status := .completed }

/-- DoubleEliminationTournament.recordMatchResult(matchId, { winnerId }). -/
def deRecord (s : DEState) (matchId winnerId : Nat) : Except String DEState :=
  if s.started = false then .error "Tournament not started"
  else
    match s.winnersBracket.findIdx? (fun m => m.id == matchId) with
    | some wbIndex =>
        match s.winnersBracket[wbIndex]? with
        | none => .error "Match not found"
        | some m =>
            if m.status = .completed then .error "Match already completed"
            else
              let loserId? := m.participantIds.find? (fun id => id != winnerId)
              let losses := match loserId? with
                | some l => mapSet s.participantLosses l (mapGetD s.participantLosses l + 1)
                | none => s.participantLosses
              let s1 := { s with
                winnersBracket := s.winnersBracket.set wbIndex (deCompleteMatch m winnerId),
                participantLosses := losses }
              .ok (deHandleWinnersBracketResult s1 wbIndex winnerId loserId?)
    | none =>
    match s.losersBracket.findIdx? (fun m => m.id == matchId) with
    | some lbIndex =>
        match s.losersBracket[lbIndex]? with
        | none => .error "Match not found"
        | some m =>
            if m.status = .completed then .error "Match already completed"
            else
              let loserId? := m.participantIds.find? (fun id => id != winnerId)
              let losses := match loserId? with
                | some l => mapSet s.participantLosses l (mapGetD s.participantLosses l + 1)
                | none => s.participantLosses
              let s1 := { s with
                losersBracket := s.losersBracket.set lbIndex (deCompleteMatch m winnerId),
                participantLosses := losses }
              .ok (deHandleLosersBracketResult s1 winnerId)
    | none =>
    match s.grandFinal with
    | some gf =>
        if gf.id = matchId then
          if gf.status = .completed then .error "Match already completed"
          else
            let loserId? := gf.participantIds.find? (fun id => id != winnerId)
            let losses := match loserId? with
              | some l => mapSet s.participantLosses l (mapGetD s.participantLosses l + 1)
              | none => s.participantLosses
            let s1 := { s with
              grandFinal := some (deCompleteMatch gf winnerId),
              participantLosses := losses }
            .ok (deHandleGrandFinalResult s1 (deCompleteMatch gf winnerId) winnerId loserId?)
        else
          match s.grandFinalReset with
          | some r =>
              if r.id = matchId then
                if r.status = .completed then .error "Match already completed"
                else
                  let loserId? := r.participantIds.find? (fun id => id != winnerId)
                  let losses := match loserId? with
                    | some l => mapSet s.participantLosses l (mapGetD s.participantLosses l + 1)
                    | none => s.participantLosses
                  .ok { s with
                    grandFinalReset := some (deCompleteMatch r winnerId),
                    participantLosses := losses, completed := true }
              else .error "Match not found"
          | none => .error "Match not found"
    | none =>
    match s.grandFinalReset with
    | some r =>
        if r.id = matchId then
          if r.status = .completed then .error "Match already completed"
          else
            let loserId? := r.participantIds.find? (fun id => id != winnerId)
            let losses := match loserId? with
              | some l => mapSet s.participantLosses l (mapGetD s.participantLosses l + 1)
              | none => s.participantLosses
            .ok { s with
              grandFinalReset := some (deCompleteMatch r winnerId),
              participantLosses := losses, completed := true }
        else .error "Match not found"
    | none => .error "Match not found"

/-- All matches of a double-elimination state, in standings order. -/
def deAllMatches (s : DEState) : List MatchR :=
  s.winnersBracket ++ s.losersBracket ++ s.grandFinal.toList ++ s.grandFinalReset.toList

/-- Grand-final branch of the rank assignment of
DoubleEliminationTournament.getStandings. -/
def deRankGrandFinal (s : DEState) (pid : Nat) : Nat :=
  match s.grandFinal with
  | some gf =>
      if gf.status = .completed then
        if (gf.result.bind MatchResultR.winnerId) = some pid then 1
        else if pid ∈ gf.participantIds then 2 else 0
      else 0
  | none => 0

/-- Rank assignment of DoubleEliminationTournament.getStandings. -/
def deRank (s : DEState) (pid : Nat) : Nat :=
  if s.completed then
    match s.grandFinalReset with
    | some r =>
        if r.status = .completed then
          if (r.result.bind MatchResultR.winnerId) = some pid then 1
          else if pid ∈ r.participantIds then 2 else 0
        else deRankGrandFinal s pid
    | none => deRankGrandFinal s pid
  else 0

/-- Standings sort comparator of DoubleEliminationTournament.getStandings
(rank, then losses ascending, then wins descending, then name). -/
def deStandCmp (a b : StandingR) : Int :=
  if a.rank ≠ 0 ∧ b.rank ≠ 0 then (a.rank : Int) - (b.rank : Int)
  else if a.rank ≠ 0 then -1
  else if b.rank ≠ 0 then 1
  else if a.losses ≠ b.losses then (a.losses : Int) - (b.losses : Int)
  else if a.wins ≠ b.wins then (b.wins : Int) - (a.wins : Int)
  else localeCompare a.participantName b.participantName

/-- DoubleEliminationTournament.getStandings. -/
def deGetStandings (s : DEState) : List StandingR :=
  sortJS (fun a b => decide (deStandCmp a b ≤ 0))
    (s.participants.map (fun p =>
      let completedM := ((deAllMatches s).filter
        (fun m => m.participantIds.contains p.id)).filter
          (fun m => decide (m.status = .completed))
      let wins := (completedM.filter
        (fun m => (m.result.bind MatchResultR.winnerId) == some p.id)).length
      let losses := mapGetD s.participantLosses p.id
      { participantId := p.id, participantName := p.name, rank := deRank s p.id,
        wins := wins, losses := losses, ties := 0,
        matchesPlayed := completedM.length, isEliminated := some (decide (2 ≤ losses)) }))

/-- The structural part of the persisted DoubleEliminationState document
(identity and timestamp fields are covered by the base-class model
`btExportState` below). -/
structure DESnapshot where
  started : Bool
  completed : Bool
  participants : List ParticipantR
  opts : DEOptions
  winnersBracket : List MatchR
  losersBracket : List MatchR
  grandFinal : Option MatchR
  grandFinalReset : Option MatchR
deriving DecidableEq, Repr

/-- DoubleEliminationTournament.exportState. -/
def deExportState (s : DEState) : DESnapshot :=
  { started := s.started, completed := s.completed, participants := s.participants,
    opts := s.opts, winnersBracket := s.winnersBracket,
    losersBracket := s.losersBracket, grandFinal := s.grandFinal,
    grandFinalReset := s.grandFinalReset }

/-- Completed-match loss count used by the rebuild loop of
DoubleEliminationTournament.importState. -/
def deCountLosses (st : DESnapshot) (pid : Nat) : Nat :=
  ((st.winnersBracket ++ st.losersBracket ++ st.grandFinal.toList
      ++ st.grandFinalReset.toList).filter
    (fun m => decide (m.status = .completed)
      && (m.result.bind MatchResultR.winnerId).isSome
      && m.participantIds.contains pid
      && decide ((m.result.bind MatchResultR.winnerId) ≠ some pid))).length

/-- DoubleEliminationTournament.importState: copy every stored field, then
rebuild the per-participant loss counters by scanning completed matches
only. -/
def deImportState (s : DEState) (st : DESnapshot) : DEState :=
  { s with
    started := st.started, completed := st.completed,
    participants := st.participants, winnersBracket := st.winnersBracket,
    losersBracket := st.losersBracket, grandFinal := st.grandFinal,
    grandFinalReset := st.grandFinalReset,
    participantLosses := st.participants.map (fun p => (p.id, deCountLosses st p.id)) }

/-- A concrete four-participant roster (seeds 1..4). -/
def ps4c : List ParticipantR :=
  [⟨1, "a", 1⟩, ⟨2, "b", 2⟩, ⟨3, "c", 3⟩, ⟨4, "d", 4⟩]

/-- A concrete eight-participant roster (seeds 1..8). -/
def ps8c : List ParticipantR :=
  [⟨1, "a", 1⟩, ⟨2, "b", 2⟩, ⟨3, "c", 3⟩, ⟨4, "d", 4⟩,
   ⟨5, "e", 5⟩, ⟨6, "f", 6⟩, ⟨7, "g", 7⟩, ⟨8, "h", 8⟩]

/-- Run a sequence of `(matchId, winnerId)` result recordings. -/
def deRunSeq : DEState → List (Nat × Nat) → Except String DEState
  | s, [] => .ok s
  | s, (mid, w) :: rest =>
      match deRecord s mid w with
      | .ok s' => deRunSeq s' rest
      | .error e => .error e

/-- A recording is legitimate when the match is offered by
`getCurrentMatches` (hence has exactly 2 participants and is uncompleted) and
the winner is one of its participants. -/
def deLegit (s : DEState) (mid w : Nat) : Bool :=
  (deGetCurrentMatches s).any
    (fun m => m.id == mid && m.participantIds.contains w
      && decide (m.participantIds.length = 2))

/-- Every step of the sequence is legitimate and succeeds. -/
def deSeqLegit : DEState → List (Nat × Nat) → Bool
  | _, [] => true
  | s, (mid, w) :: rest =>
      deLegit s mid w &&
        (match deRecord s mid w with
         | .ok s' => deSeqLegit s' rest
         | .error _ => false)

/-- The play sequence of the 8-player counterexample: both winners-bracket
semifinal losers reach the losers bracket only after the whole early losers
bracket is finished, so both grand-final slots are filled from the losers
bracket before the winners final is played. -/
def deSeqC4 : List (Nat × Nat) :=
  [(0, 1), (1, 2), (2, 3), (3, 4), (7, 8), (8, 6), (9, 8), (4, 1), (5, 3),
   (11, 2), (10, 8)]

/-- A concrete five-participant roster (seeds 1..5). -/
def ps5c : List ParticipantR :=
  [⟨1, "a", 1⟩, ⟨2, "b", 2⟩, ⟨3, "c", 3⟩, ⟨4, "d", 4⟩, ⟨5, "e", 5⟩]

/-- The started single-elimination engine on the five-participant roster. -/
def seW : SEState :=
  { bracket := seGenerateBracket ps5c, thirdPlace := none, opts := ⟨false, false⟩,
    started := true, completed := false, nextId := 4 }

/-! ## Round-robin engine (RoundRobin.ts, head-to-head mode)

The multi-player grouping mode is a separate code path not touched by any
claim; the embedding covers the head-to-head mode (`matchType` absent or
`'head-to-head'`, so `isMultiPlayer` is false throughout). -/

/-- `rankingMethod` of RoundRobinOptions. -/
inductive RankMethod where
  | wins
  | points
deriving DecidableEq, Repr

/-- RoundRobinOptions fields used by the head-to-head mode. -/
structure RROptions where
  rounds : Nat
  rankingMethod : RankMethod
deriving DecidableEq, Repr

/-- State owned by a `RoundRobinTournament` instance (head-to-head). -/
structure RRState where
  participants : List ParticipantR
  matchList : List MatchR
  currentRound : Nat
  opts : RROptions
  started : Bool := false
  completed : Bool := false
deriving DecidableEq, Repr

/-- `score[k] || 0` on an optional per-participant score map. -/
def scoreGetD (sc : Option (List (Nat × Int))) (k : Nat) : Int :=
  ((sc.getD []).lookup k).getD 0

/-- RoundRobinTournament.generateHeadToHeadMatches: one match per ordered pair
`i < j` per repeat-round, with match numbers assigned afterwards. -/
def rrGenerateMatches (ps : List ParticipantR) (rounds : Nat) : List MatchR :=
  (((List.range rounds).bind (fun r =>
      (List.range ps.length).bind (fun i =>
        ((List.range ps.length).filter (fun j => decide (i < j))).map
          (fun j => (r + 1, i, j))))).enum).map
    (fun e => MatchR.mk e.1 .pending
      [(ps.getD e.2.2.1 ⟨0, "", 0⟩).id, (ps.getD e.2.2.2 ⟨0, "", 0⟩).id]
      none (some e.2.1) (some (e.1 + 1)))

/-- RoundRobinTournament.start() (head-to-head). -/
def rrStart (ps : List ParticipantR) (opts : RROptions) : Except String RRState :=
  if ps.length < 2 then .error "This tournament requires at least 2 participants"
  else .ok { participants := ps, matchList := rrGenerateMatches ps opts.rounds,
             currentRound := 1, opts := opts, started := true, completed := false }

/-- RoundRobinTournament.checkRoundCompletion. -/
def rrCheckRoundCompletion (s : RRState) : RRState :=
  if s.opts.rounds ≤ s.currentRound then s
  else if (s.matchList.filter (fun m => m.round == some s.currentRound)).all
      (fun m => m.status == .completed) then
    { s with currentRound := s.currentRound + 1 }
  else s

/-- RoundRobinTournament.checkCompletion. -/
def rrCheckCompletion (s : RRState) : RRState :=
  { s with completed := s.matchList.all (fun m => m.status == .completed) }

/-- RoundRobinTournament.recordMatchResult (head-to-head validation path). -/
def rrRecord (s : RRState) (matchId : Nat) (result : MatchResultR) :
    Except String RRState :=
  if s.started = false then .error "Tournament not started"
  else
    match s.matchList.findIdx? (fun m => m.id == matchId) with
    | none => .error "Match not found"
    | some i =>
        match s.matchList[i]? with
        | none => .error "Match not found"
        | some m =>
            if m.status = .completed then .error "Match already completed"
            else if s.opts.rankingMethod = .points ∧ result.score = none then
              .error "Score is required when ranking by points"
            else if s.opts.rankingMethod = .wins ∧ result.winnerId = none ∧
                result.isTie = false then
              .error "Winner or tie must be specified when ranking by wins"
            else
              .ok (rrCheckCompletion (rrCheckRoundCompletion
                { s with matchList := (s.matchList.set i
                    { m with result := some result, status := .completed }) }))

/-- Per-match head-to-head tally step of RoundRobinTournament.getStandings:
accumulator is (wins, losses, ties, points). -/
def rrTallyMatch (method : RankMethod) (pid : Nat)
    (acc : Nat × Nat × Nat × Int) (m : MatchR) : Nat × Nat × Nat × Int :=
  let result := m.result.getD {}
  match method with
  | .wins =>
      if result.isTie then (acc.1, acc.2.1, acc.2.2.1 + 1, acc.2.2.2)
      else if result.winnerId = some pid then (acc.1 + 1, acc.2.1, acc.2.2.1, acc.2.2.2)
      else (acc.1, acc.2.1 + 1, acc.2.2.1, acc.2.2.2)
  | .points =>
      match result.score with
      | none => acc
      | some _ =>
          let participantScore := scoreGetD result.score pid
          let acc1 := (acc.1, acc.2.1, acc.2.2.1, acc.2.2.2 + participantScore)
          match m.participantIds.find? (fun id => id != pid) with
          | none => acc1
          | some opponentId =>
              let opponentScore := scoreGetD result.score opponentId
              if opponentScore < participantScore then
                (acc1.1 + 1, acc1.2.1, acc1.2.2.1, acc1.2.2.2)
              else if participantScore < opponentScore then
                (acc1.1, acc1.2.1 + 1, acc1.2.2.1, acc1.2.2.2)
              else (acc1.1, acc1.2.1, acc1.2.2.1 + 1, acc1.2.2.2)

/-- The unsorted standings entries of RoundRobinTournament.getStandings
(one per participant, rank still 0). -/
def rrEntries (s : RRState) : List StandingR :=
  s.participants.map (fun p =>
    let completedM := (s.matchList.filter
      (fun m => m.participantIds.contains p.id)).filter
        (fun m => decide (m.status = .completed))
    let t := completedM.foldl (rrTallyMatch s.opts.rankingMethod p.id) (0, 0, 0, 0)
    { participantId := p.id, participantName := p.name, rank := 0,
      wins := t.1, losses := t.2.1, ties := t.2.2.1,
      points := if s.opts.rankingMethod = .points then some t.2.2.2 else none,
      matchesPlayed := completedM.length })

/-- Standings comparator for `rankingMethod = 'wins'`: wins descending, then
losses ascending, then name. -/
def rrCmpWins (a b : StandingR) : Int :=
  if a.wins ≠ b.wins then (b.wins : Int) - (a.wins : Int)
  else if a.losses ≠ b.losses then (a.losses : Int) - (b.losses : Int)
  else localeCompare a.participantName b.participantName

/-- Standings comparator for `rankingMethod = 'points'`: points descending,
then wins descending, then name. -/
def rrCmpPoints (a b : StandingR) : Int :=
  if a.points.getD 0 ≠ b.points.getD 0 then b.points.getD 0 - a.points.getD 0
  else if a.wins ≠ b.wins then (b.wins : Int) - (a.wins : Int)
  else localeCompare a.participantName b.participantName

/-- Post-sort 1-based rank assignment (`standing.rank = index + 1`). -/
def assignRanksGo : Nat → List StandingR → List StandingR
  | _, [] => []
  | i, st :: rest => { st with rank := i + 1 } :: assignRanksGo (i + 1) rest

/-- Rank assignment starting at rank 1. -/
def assignRanks (l : List StandingR) : List StandingR :=
  assignRanksGo 0 l

/-- RoundRobinTournament.getStandings (head-to-head). -/
def rrGetStandings (s : RRState) : List StandingR :=
  if s.opts.rankingMethod = .wins then
    assignRanks (sortJS (fun a b => decide (rrCmpWins a b ≤ 0)) (rrEntries s))
  else
    assignRanks (sortJS (fun a b => decide (rrCmpPoints a b ≤ 0)) (rrEntries s))

/-- Forget the assigned rank of a standings entry. -/
def eraseRank (st : StandingR) : StandingR :=
  { st with rank := 0 }

/-- A three-participant roster with names in a known order. -/
def rr3c : List ParticipantR :=
  [⟨1, "Ann", 1⟩, ⟨2, "Bob", 2⟩, ⟨3, "Cid", 3⟩]

/-- Play the three-participant single round: Ann beats Bob, the two matches
involving Cid are ties. -/
def rr3played : Except String RRState :=
  match rrStart rr3c ⟨1, .wins⟩ with
  | .error e => .error e
  | .ok s0 =>
  match rrRecord s0 0 { winnerId := some 1 } with
  | .error e => .error e
  | .ok s1 =>
  match rrRecord s1 1 { isTie := true } with
  | .error e => .error e
  | .ok s2 => rrRecord s2 2 { isTie := true }

/-- Placeholder standings entry for out-of-range list reads. -/
def stDefault : StandingR :=
  ⟨0, "", 0, 0, 0, 0, none, none, none, 0, none⟩

/-- The ordering the head-to-head wins comparator implements: wins
descending, then losses ascending, then name ascending. -/
def rrWinsOrder (x y : StandingR) : Prop :=
  y.wins < x.wins ∨
    (x.wins = y.wins ∧
      (x.losses < y.losses ∨
        (x.losses = y.losses ∧
          charListCmp x.participantName.data y.participantName.data ≤ 0)))

/-- The round-robin engine after the three-participant play of
`rr3played` (used to witness the standings theorem on a concrete state). -/
def rrWState : RRState :=
  (rr3played.toOption).getD
    { participants := [], matchList := [], currentRound := 0, opts := ⟨1, .wins⟩ }

/-- A concrete pending grand final between participants 1 and 2. -/
def gfC3 : MatchR := ⟨10, .pending, [1, 2], none, none, some 3⟩

/-- A double-elimination state at the grand final: participant 1 arrived from
the losers bracket with one loss, participant 2 is unbeaten. -/
def deC3s : DEState :=
  { participants := [⟨1, "a", 1⟩, ⟨2, "b", 2⟩], winnersBracket := [],
    losersBracket := [], grandFinal := some gfC3, grandFinalReset := none,
    participantLosses := [(1, 1), (2, 0)], opts := ⟨false, false⟩,
    started := true, completed := false, nextId := 11 }

/-! ## Free-for-all engine (FreeForAll.ts, FreeForAllTournament) -/

/-- `advancementRule` of FreeForAllOptions. -/
inductive AdvRule where
  | winnerOnly
  | topN
deriving DecidableEq, Repr

/-- FreeForAllOptions fields used by the engine. -/
structure FFAOptions where
  participantsPerMatch : Nat
  advancementRule : Option AdvRule := none
  advancementCount : Option Nat := none
  pointsSystem : Option PointsSystemConfig := none
deriving DecidableEq, Repr

/-- State owned by a `FreeForAllTournament` instance; the eliminated-id `Set`
is modelled as an insertion-ordered duplicate-free list. -/
structure FFAState where
  participants : List ParticipantR
  rounds : List (List MatchR)
  currentRound : Nat
  eliminatedParticipants : List Nat := []
  opts : FFAOptions
  started : Bool := false
  completed : Bool := false
  nextId : Nat := 0
deriving DecidableEq, Repr

/-- `Set.add`. -/
def setAdd (l : List Nat) (x : Nat) : List Nat :=
  if x ∈ l then l else l ++ [x]

/-- The advancement threshold: 1 for winner-only (or unset), the configured
`advancementCount || 1` for top-n. -/
def ffaThreshold (opts : FFAOptions) : Nat :=
  if opts.advancementRule = some .topN then jsOr opts.advancementCount 1 else 1

/-- Split a participant list into consecutive groups of `perMatch`
(`for (i = 0; i < length; i += perMatch) slice(i, i + perMatch)`). -/
def chunksGo (perMatch : Nat) : Nat → List Nat → List (List Nat)
  | 0, _ => []
  | fuel + 1, l => if l.isEmpty then [] else l.take perMatch :: chunksGo perMatch fuel (l.drop perMatch)

/-- Participant groups of one free-for-all round. -/
def ffaChunks (perMatch : Nat) (l : List Nat) : List (List Nat) :=
  chunksGo perMatch l.length l

/-- FreeForAllTournament.generateRound: one pending match per group of ≥ 2,
and a pre-completed single-entry bye match (rank 1) for a leftover single
participant. -/
def ffaGenerateRound (s : FFAState) (pids : List Nat) : FFAState :=
  let chunks := ffaChunks s.opts.participantsPerMatch pids
  let newMatches := chunks.enum.map (fun c =>
    if 2 ≤ c.2.length then
      MatchR.mk (s.nextId + c.1) .pending c.2 none (some (s.rounds.length + 1))
        (some (c.1 + 1))
    else
      MatchR.mk (s.nextId + c.1) .completed c.2
        (some { rankings := c.2.map (fun p => (p, 1)) })
        (some (s.rounds.length + 1)) (some (c.1 + 1)))
  { s with rounds := s.rounds ++ [newMatches], nextId := s.nextId + newMatches.length }

/-- FreeForAllTournament.start(). -/
def ffaStart (ps : List ParticipantR) (opts : FFAOptions) : Except String FFAState :=
  if ps.length < opts.participantsPerMatch then
    .error "This tournament requires more participants"
  else
    let s0 : FFAState :=
      { participants := ps, rounds := [], currentRound := 0,
        eliminatedParticipants := [], opts := opts, started := false,
        completed := false, nextId := 0 }
    let s1 := ffaGenerateRound s0 (ps.map ParticipantR.id)
    .ok { s1 with started := true, currentRound := 1 }

/-- Locate a match id across the rounds. -/
def ffaFindMatch (rounds : List (List MatchR)) (mid : Nat) : Option (Nat × Nat) :=
  match rounds.findIdx? (fun r => r.any (fun m => m.id == mid)) with
  | none => none
  | some ri =>
      match (rounds.getD ri []).findIdx? (fun m => m.id == mid) with
      | some mi => some (ri, mi)
      | none => none

/-- Validation that ranking positions are consecutive from 1 (the source
sorts a copy of the positions ascending and compares index-wise). -/
def ffaValidPositions (rankings : List (Nat × Nat)) : Bool :=
  (sortJS (fun a b => decide (a ≤ b)) (rankings.map Prod.snd)).enum.all
    (fun p => p.2 == p.1 + 1)

/-- Per-participant points of a ranked match via the points resolver. -/
def ffaScores (cfg : PointsSystemConfig) (count : Nat) :
    List (Nat × Nat) → Except String (List (Nat × Int))
  | [] => .ok []
  | (p, pos) :: rest =>
      match getPointsForPlacement cfg (pos : Int) count with
      | .error e => .error e
      | .ok pts =>
          match ffaScores cfg count rest with
          | .error e => .error e
          | .ok l => .ok ((p, pts) :: l)

/-- Collect the advancing participant ids of a completed round. -/
def ffaAdvancing (thr : Nat) (roundMatches : List MatchR) : List Nat :=
  roundMatches.foldl (fun acc m =>
    match m.result with
    | some res => acc ++ ((res.rankings.filter (fun r => decide (r.2 ≤ thr))).map Prod.fst)
    | none => acc) []

/-- FreeForAllTournament.checkRoundCompletion. -/
def ffaCheckRoundCompletion (s : FFAState) : FFAState :=
  if s.currentRound = 0 ∨ s.rounds.length < s.currentRound then s
  else
    let cur := s.rounds.getD (s.currentRound - 1) []
    if ¬ (cur.all (fun m => m.status == .completed)) then s
    else
      let advancing := ffaAdvancing (ffaThreshold s.opts) cur
      if advancing.length < 2 then { s with completed := true }
      else if advancing.length ≤ s.opts.participantsPerMatch then
        (if s.rounds.length = s.currentRound then
          ffaGenerateRound { s with currentRound := s.currentRound + 1 } advancing
        else { s with completed := true })
      else
        ffaGenerateRound { s with currentRound := s.currentRound + 1 } advancing

/-- FreeForAllTournament.recordMatchResult. -/
def ffaRecord (s : FFAState) (matchId : Nat) (result : MatchResultR) :
    Except String FFAState :=
  if s.started = false then .error "Tournament not started"
  else
    match ffaFindMatch s.rounds matchId with
    | none => .error "Match not found"
    | some rm =>
        let m := (s.rounds.getD rm.1 []).getD rm.2 (mkEmptyMatch 0 0 0)
        if m.status = .completed then .error "Match already completed"
        else if result.rankings.length = 0 then
          .error "Free For All requires rankings for all participants"
        else if result.rankings.length ≠ m.participantIds.length then
          .error "All participants must be ranked"
        else if ¬ ffaValidPositions result.rankings then
          .error "Rankings must be consecutive starting from 1"
        else
          let scored : Except String (Option (List (Nat × Int))) :=
            match s.opts.pointsSystem with
            | some cfg =>
                match ffaScores cfg m.participantIds.length result.rankings with
                | .error e => .error e
                | .ok sc => .ok (some sc)
            | none => .ok result.score
          match scored with
          | .error e => .error e
          | .ok score' =>
              let res' := { result with score := score' }
              let m' := { m with result := some res', status := .completed }
              let s1 := { s with rounds :=
                (List.modify (fun r => List.modify (fun _ => m') rm.2 r) rm.1 s.rounds) }
              let thr := ffaThreshold s.opts
              let s2 := { s1 with eliminatedParticipants :=
                (result.rankings.foldl
                  (fun el r => if thr < r.2 then setAdd el r.1 else el)
                  s1.eliminatedParticipants) }
              .ok (ffaCheckRoundCompletion s2)

/-- One successful `recordMatchResult` call. -/
def FFAStep (s s' : FFAState) : Prop :=
  ∃ mid res, ffaRecord s mid res = .ok s'

/-- A concrete started four-participant free-for-all engine
(4 per match, winner-only). -/
def ffaW0 : FFAState :=
  ((ffaStart ps4c ⟨4, some .winnerOnly, none, none⟩).toOption).getD
    { participants := [], rounds := [], currentRound := 0,
      opts := ⟨4, none, none, none⟩ }

/-- A full ranking of the single first-round match of `ffaW0`. -/
def ffaResW : MatchResultR :=
  { rankings := [(1, 1), (2, 2), (3, 3), (4, 4)] }

/-- The engine after recording `ffaResW` on the first-round match. -/
def ffaW1 : FFAState :=
  ((ffaRecord ffaW0 0 ffaResW).toOption).getD ffaW0

/-! ## Swiss engine (SwissTournament, generateNextRound) -/

/-- SwissOptions fields used by the engine. -/
structure SwissOptions where
  numberOfRounds : Option Nat := none
  pointsPerMatchWin : Int
  pointsPerMatchTie : Int
  pointsPerGameWin : Int
  pointsPerBye : Int
deriving DecidableEq, Repr

/-- The per-participant running score record of the Swiss engine. -/
structure SwScore where
  participantId : Nat
  matchPoints : Int
  gamePoints : Int
  opponentIds : List Nat
  matchesPlayed : Nat
deriving DecidableEq, Repr

/-- `Map.set` for the participant-score map. -/
def smapSet (m : List (Nat × SwScore)) (k : Nat) (v : SwScore) :
    List (Nat × SwScore) :=
  match m with
  | [] => [(k, v)]
  | (k', v') :: rest => if k' = k then (k, v) :: rest else (k', v') :: smapSet rest k v

/-- `participantScores.get(id)!`; participants are initialised at start. -/
def swGet (m : List (Nat × SwScore)) (k : Nat) : SwScore :=
  (m.lookup k).getD ⟨0, 0, 0, [], 0⟩

/-- State owned by a `SwissTournament` instance. -/
structure SwissState where
  participants : List ParticipantR
  rounds : List (List MatchR)
  currentRound : Nat
  participantScores : List (Nat × SwScore)
  opts : SwissOptions
  numberOfRounds : Nat
  started : Bool := false
  completed : Bool := false
  nextId : Nat := 0
deriving DecidableEq, Repr

/-- Sort comparator of `generateNextRound`: match points descending, then
game points descending. -/
def swCmp (a b : ParticipantR × SwScore) : Int :=
  if a.2.matchPoints ≠ b.2.matchPoints then b.2.matchPoints - a.2.matchPoints
  else b.2.gamePoints - a.2.gamePoints

/-- The participants of a state sorted by running score. -/
def swSorted (s : SwissState) : List (ParticipantR × SwScore) :=
  sortJS (fun a b => decide (swCmp a b ≤ 0))
    (s.participants.map (fun p => (p, swGet s.participantScores p.id)))

/-- The opponent history of a participant, read from the sorted list
(the score record of the first entry carrying the id). -/
def swHist (sorted : List (ParticipantR × SwScore)) (pid : Nat) : List Nat :=
  ((sorted.find? (fun sp => sp.1.id == pid)).map (fun sp => sp.2.opponentIds)).getD []

/-- The pairing `while` loop of `generateNextRound`, as written: the unpaired
pool is a `Set` (here a duplicate-free list) and each lookup scans
`sortedParticipants` for the first entry still in the pool.  Returns the
pairs (participant1, opponent) in creation order and the leftover pool.
`fuel` bounds the iterations (each iteration removes two participants, so
`participants.length` suffices). -/
def swPairLoopCode (sorted : List (ParticipantR × SwScore)) :
    Nat → List Nat → List (Nat × Nat) × List Nat
  | 0, unpaired => ([], unpaired)
  | fuel + 1, unpaired =>
      if unpaired.length ≤ 1 then ([], unpaired)
      else
        match sorted.find? (fun sp => unpaired.contains sp.1.id) with
        | none => ([], unpaired)
        | some p1sp =>
            let unpaired1 := unpaired.erase p1sp.1.id
            let opp? :=
              match sorted.find? (fun sp => unpaired1.contains sp.1.id
                  && !(p1sp.2.opponentIds.contains sp.1.id)) with
              | some o => some o.1.id
              | none =>
                  (sorted.find? (fun sp => unpaired1.contains sp.1.id)).map
                    (fun sp => sp.1.id)
            match opp? with
            | some oppId =>
                let r := swPairLoopCode sorted fuel (unpaired1.erase oppId)
                ((p1sp.1.id, oppId) :: r.1, r.2)
            | none => ([], unpaired1)

/-- The pairing rule as the specification words it: repeatedly take the
top-ranked unpaired participant and pair them with the highest-sorted
unpaired participant not already in their opponent history, falling back to
the first remaining unpaired participant when every candidate is a repeat.
Works directly on the sorted id list. -/
def swPairSpec (sorted : List (ParticipantR × SwScore)) :
    Nat → List Nat → List (Nat × Nat)
  | 0, _ => []
  | fuel + 1, working =>
      match working with
      | [] => []
      | [_] => []
      | p1 :: rest =>
          match rest.find? (fun c => !((swHist sorted p1).contains c)) with
          | some opp => (p1, opp) :: swPairSpec sorted fuel (rest.erase opp)
          | none =>
              match rest with
              | q :: rest' => (p1, q) :: swPairSpec sorted fuel rest'
              | [] => []

/-- SwissTournament.generateNextRound. -/
def swGenerateNextRound (s : SwissState) : SwissState :=
  if s.numberOfRounds ≤ s.currentRound then s
  else
    let sorted := swSorted s
    let pr := swPairLoopCode sorted s.participants.length
      (sorted.map (fun sp => sp.1.id))
    let pairMatches := pr.1.enum.map (fun e =>
      MatchR.mk (s.nextId + e.1) .pending [e.2.1, e.2.2] none
        (some (s.rounds.length + 1)) none)
    let withBye :=
      if pr.2.length = 1 then
        pairMatches ++ [MatchR.mk (s.nextId + pairMatches.length) .completed
          [pr.2.headD 0]
          (some { winnerId := some (pr.2.headD 0),
                  score := some [(pr.2.headD 0, s.opts.pointsPerBye)] })
          (some (s.rounds.length + 1)) none]
      else pairMatches
    let scores' :=
      if pr.2.length = 1 then
        smapSet s.participantScores (pr.2.headD 0)
          { swGet s.participantScores (pr.2.headD 0) with
              matchPoints := (swGet s.participantScores (pr.2.headD 0)).matchPoints
                + s.opts.pointsPerBye,
              matchesPlayed := (swGet s.participantScores (pr.2.headD 0)).matchesPlayed
                + 1 }
      else s.participantScores
    let existing := (s.rounds.map List.length).sum
    let roundMatches := withBye.enum.map
      (fun e => { e.2 with matchNumber := some (existing + e.1 + 1) })
    { s with
      rounds := s.rounds ++ [roundMatches],
      participantScores := scores',
      nextId := s.nextId + withBye.length }

/-- SwissTournament.start(). -/
def swStart (ps : List ParticipantR) (opts : SwissOptions) :
    Except String SwissState :=
  if ps.length < 2 then .error "This tournament requires at least 2 participants"
  else
    let s0 : SwissState :=
      { participants := ps, rounds := [], currentRound := 0,
        participantScores := ps.map (fun p => (p.id, ⟨p.id, 0, 0, [], 0⟩)),
        opts := opts, numberOfRounds := jsOr opts.numberOfRounds (ceilLog2 ps.length),
        started := false, completed := false, nextId := 0 }
    let s1 := swGenerateNextRound s0
    .ok { s1 with started := true, currentRound := 1 }

/-- A concrete five-participant Swiss tournament state after `start()`
(win 3, tie 1, game 1, bye 3). -/
def swW : SwissState :=
  ((swStart ps5c ⟨none, 3, 1, 1, 3⟩).toOption).getD
    { participants := [], rounds := [], currentRound := 0,
      participantScores := [], opts := ⟨none, 3, 1, 1, 3⟩, numberOfRounds := 0 }

/-! ## BaseTournament export/touch (BaseTournament.ts lines 137-139, 179-188)

Every engine's `exportState()` builds a document from the base fields
(id, name, createdAt, updatedAt) and pure projections of the engine-specific
state; `export()` is `touch(); return exportState();`.  The engine-specific
payload is abstracted as `g : σ → τ`. -/

/-- The fields every engine inherits from BaseTournament, plus the
engine-specific rest of the state. -/
structure EngineState (σ : Type) where
  id : Nat
  name : String
  createdAt : Nat
  updatedAt : Nat
  rest : σ
deriving DecidableEq, Repr

/-- The shape every exportState document shares. -/
structure BTSnapshot (τ : Type) where
  id : Nat
  name : String
  createdAt : Nat
  updatedAt : Nat
  payload : τ
deriving DecidableEq, Repr

/-- BaseTournament.touch: `this.updatedAt = new Date()`. -/
def btTouch {σ : Type} (s : EngineState σ) (now : Nat) : EngineState σ :=
  { s with updatedAt := now }

/-- An engine's exportState as a pure function of the state. -/
def btExportState {σ τ : Type} (g : σ → τ) (s : EngineState σ) : BTSnapshot τ :=
  { id := s.id, name := s.name, createdAt := s.createdAt,
    updatedAt := s.updatedAt, payload := g s.rest }

/-- BaseTournament.export: touch, then serialize; returns the snapshot and
the post-call engine state. -/
def btExport {σ τ : Type} (g : σ → τ) (s : EngineState σ) (now : Nat) :
    BTSnapshot τ × EngineState σ :=
  (btExportState g (btTouch s now), btTouch s now)

/-! ## Theorems -/

theorem ceilLog2Aux_le_pow (n : Nat) :
    ∀ fuel r, n ≤ 2 ^ (r + fuel) → n ≤ 2 ^ ceilLog2Aux n fuel r := by
  intro fuel
  induction fuel with
  | zero => intro r h; simpa [ceilLog2Aux] using h
  | succ k ih =>
      intro r h
      by_cases hr : n ≤ 2 ^ r
      · simpa [ceilLog2Aux, hr] using hr
      · have h' : n ≤ 2 ^ (r + 1 + k) := by
          have : r + (k + 1) = r + 1 + k := by omega
          simpa [this] using h
        simpa [ceilLog2Aux, hr] using ih (r + 1) h'

theorem ceilLog2Aux_min (n : Nat) :
    ∀ fuel r r', r ≤ r' → r' < ceilLog2Aux n fuel r → ¬ n ≤ 2 ^ r' := by
  intro fuel
  induction fuel with
  | zero =>
      intro r r' hle hlt
      simp [ceilLog2Aux] at hlt
      omega
  | succ k ih =>
      intro r r' hle hlt
      by_cases hr : n ≤ 2 ^ r
      · simp [ceilLog2Aux, hr] at hlt; omega
      · simp [ceilLog2Aux, hr] at hlt
        rcases Nat.eq_or_lt_of_le hle with h | h
        · simpa [← h] using hr
        · exact ih (r + 1) r' h hlt

theorem le_pow_ceilLog2 (n : Nat) : n ≤ 2 ^ ceilLog2 n := by
  have h : n ≤ 2 ^ (0 + n) := by simpa using Nat.le_of_lt (Nat.lt_two_pow n)
  exact ceilLog2Aux_le_pow n n 0 h

theorem ceilLog2_min (n r' : Nat) (h : r' < ceilLog2 n) : 2 ^ r' < n := by
  have := ceilLog2Aux_min n n 0 r' (Nat.zero_le _) h
  omega

theorem insertLe_perm {α : Type} (le : α → α → Bool) (a : α) (l : List α) :
    List.Perm (insertLe le a l) (a :: l) := by
  induction l with
  | nil => simp [insertLe]
  | cons b bs ih =>
      by_cases h : le a b && !(le b a)
      · simp [insertLe, h]
      · have h1 : List.Perm (b :: insertLe le a bs) (b :: a :: bs) := ih.cons b
        have h2 : List.Perm (b :: a :: bs) (a :: b :: bs) := List.Perm.swap a b bs
        simpa [insertLe, h] using h1.trans h2

theorem insertLe_pairwise {α : Type} (le : α → α → Bool)
    (htot : ∀ x y, le x y || le y x)
    (htrans : ∀ x y z, le x y → le y z → le x z)
    (a : α) (l : List α) (hl : List.Pairwise (fun x y => le x y) l) :
    List.Pairwise (fun x y => le x y) (insertLe le a l) := by
  induction l with
  | nil => simp [insertLe]
  | cons b bs ih =>
      rcases List.pairwise_cons.mp hl with ⟨hb, hbs⟩
      by_cases h : le a b && !(le b a)
      · have hab : le a b := by
          rcases Bool.and_eq_true_iff.mp h with ⟨h1, _⟩
          exact h1
        simp only [insertLe, h, if_pos]
        refine List.pairwise_cons.mpr ⟨?_, hl⟩
        intro c hc
        rw [List.mem_cons] at hc
        rcases hc with hc | hc
        · simpa [hc] using hab
        · exact htrans a b c hab (hb c hc)
      · have hba : le b a := by
          by_cases hab : le a b = true
          · by_cases hba : le b a = true
            · exact hba
            · exact absurd (by simp [hab, hba]) h
          · have := htot a b
            simp [hab] at this
            exact this
        simp only [insertLe, h, if_neg, Bool.false_eq_true, not_false_iff]
        refine List.pairwise_cons.mpr ⟨?_, ih hbs⟩
        intro c hc
        have hc' : c ∈ a :: bs := (insertLe_perm le a bs).mem_iff.mp hc
        rw [List.mem_cons] at hc'
        rcases hc' with hc' | hc'
        · simpa [hc'] using hba
        · exact hb c hc'

theorem sortJS_perm_aux {α : Type} (le : α → α → Bool) :
    ∀ (l acc : List α), List.Perm (l.foldl (fun acc a => insertLe le a acc) acc) (acc ++ l) := by
  intro l
  induction l with
  | nil => intro acc; simp
  | cons a as ih =>
      intro acc
      have h0 : (a :: as).foldl (fun acc a => insertLe le a acc) acc
          = as.foldl (fun acc a => insertLe le a acc) (insertLe le a acc) := by
        simp [List.foldl_cons]
      have h1 := ih (insertLe le a acc)
      have h2 : List.Perm (insertLe le a acc ++ as) ((a :: acc) ++ as) :=
        (insertLe_perm le a acc).append_right as
      have h3 : List.Perm ((a :: acc) ++ as) (acc ++ a :: as) := by
        simpa using (@List.perm_middle _ a acc as).symm
      rw [h0]
      exact (h1.trans h2).trans h3

theorem sortJS_perm {α : Type} (le : α → α → Bool) (l : List α) :
    List.Perm (sortJS le l) l := by
  simpa [sortJS] using sortJS_perm_aux le l []

theorem sortJS_pairwise_aux {α : Type} (le : α → α → Bool)
    (htot : ∀ x y, le x y || le y x)
    (htrans : ∀ x y z, le x y → le y z → le x z) :
    ∀ (l acc : List α), List.Pairwise (fun x y => le x y) acc →
      List.Pairwise (fun x y => le x y) (l.foldl (fun acc a => insertLe le a acc) acc) := by
  intro l
  induction l with
  | nil => intro acc h; simpa using h
  | cons a as ih =>
      intro acc h
      have h' := insertLe_pairwise le htot htrans a acc h
      simpa [List.foldl_cons] using ih (insertLe le a acc) h'

theorem sortJS_pairwise {α : Type} (le : α → α → Bool)
    (htot : ∀ x y, le x y || le y x)
    (htrans : ∀ x y z, le x y → le y z → le x z) (l : List α) :
    List.Pairwise (fun x y => le x y) (sortJS le l) :=
  sortJS_pairwise_aux le htot htrans l [] (by simp)

/-- C6: for every points-system configuration that is not a custom system with
a missing/empty table and every participant count N ≥ 1, `generatePointsArray`
succeeds with an array of length exactly N, and `getPointsForPlacement`
returns 0 (without an error) for every position greater than N or less
than 1. -/
theorem generatePointsArray_length_and_oob
    (config : PointsSystemConfig) (n : Nat)
    (hc : ¬ customEmpty config) (hn : 1 ≤ n) :
    (∃ arr, generatePointsArray config n = .ok arr ∧ arr.length = n) ∧
      (∀ pos : Int, (n : Int) < pos ∨ pos < 1 →
        getPointsForPlacement config pos n = .ok 0) := by
  have harr : ∃ arr, generatePointsArray config n = .ok arr ∧ arr.length = n := by
    cases config with
    | f1 =>
        refine ⟨_, rfl, ?_⟩
        by_cases h : n ≤ f1Points.length
        · simp [fitTable, h]
        · simp only [fitTable, if_neg h]
          simp [List.length_append]
          omega
    | marioKart =>
        refine ⟨_, rfl, ?_⟩
        by_cases h : n ≤ marioKartPoints.length
        · simp [fitTable, h]
        · simp only [fitTable, if_neg h]
          simp [List.length_append]
          omega
    | linear => exact ⟨_, rfl, by simp⟩
    | winnerTakesMost =>
        by_cases h : n = 1
        · subst h
          exact ⟨[(1 : Int)], by simp [generatePointsArray], by simp⟩
        · exact ⟨((List.range n).map (fun i => ((n - i : Nat) : Int))).set 0 ((n : Int) * 2),
            by simp [generatePointsArray, h], by simp⟩
    | custom customPoints =>
        cases customPoints with
        | none => simp [customEmpty] at hc
        | some ps =>
            have hps : ps.length ≠ 0 := by simpa [customEmpty] using hc
            have hlen : (fitTable ps n).length = n := by
              by_cases h : n ≤ ps.length
              · simp [fitTable, h]
              · simp only [fitTable, if_neg h]
                simp [List.length_append]
                omega
            exact ⟨fitTable ps n, by simp [generatePointsArray, hps], hlen⟩
  refine ⟨harr, ?_⟩
  intro pos hpos
  rcases harr with ⟨arr, hok, hlen⟩
  unfold getPointsForPlacement
  rw [hok]
  have : pos - 1 < 0 ∨ (arr.length : Int) ≤ pos - 1 := by
    rcases hpos with h | h
    · right; omega
    · left; omega
  simp only [this, if_pos]

/-- Witness for C6 at the `f1` preset with 12 players and position 13. -/
theorem generatePointsArray_length_and_oob_witness :
    (¬ customEmpty PointsSystemConfig.f1) ∧ 1 ≤ 12 ∧
      ((∃ arr, generatePointsArray PointsSystemConfig.f1 12 = .ok arr ∧ arr.length = 12) ∧
        (∀ pos : Int, (12 : Int) < pos ∨ pos < 1 →
          getPointsForPlacement PointsSystemConfig.f1 pos 12 = .ok 0)) :=
  ⟨by decide, by decide,
    generatePointsArray_length_and_oob PointsSystemConfig.f1 12 (by decide) (by decide)⟩

theorem ceilLog2_le_self (n : Nat) : ceilLog2 n ≤ n := by
  by_contra h
  push_neg at h
  have := ceilLog2_min n n h
  have := Nat.lt_two_pow n
  omega

theorem ceilDiv_pow_pow (u v : Nat) (h : v ≤ u) :
    ceilDiv (2 ^ u) (2 ^ v) = 2 ^ (u - v) := by
  have hv : 0 < 2 ^ v := Nat.pos_pow_of_pos v (by omega)
  have hdvd : 2 ^ u = 2 ^ v * 2 ^ (u - v) := by
    rw [← pow_add]
    congr 1
    omega
  unfold ceilDiv
  rw [hdvd]
  have h1 : 2 ^ v * 2 ^ (u - v) + 2 ^ v - 1 = 2 ^ v * 2 ^ (u - v) + (2 ^ v - 1) := by
    omega
  rw [h1, Nat.mul_add_div hv]
  have h2 : (2 ^ v - 1) / 2 ^ v = 0 := Nat.div_eq_of_lt (by omega)
  omega

theorem selLoopEntries_pow_sum :
    ∀ d j fuel, 2 ≤ j → d + 1 ≤ fuel →
      ((selLoopEntries (2 ^ (j - 1 + d)) fuel j).map Prod.snd).sum = 2 ^ (d + 1) - 1 := by
  intro d
  induction d with
  | zero =>
      intro j fuel hj hfuel
      obtain ⟨f, rfl⟩ : ∃ f, fuel = f + 1 := ⟨fuel - 1, by omega⟩
      have hpos : 0 < 2 ^ (j - 1 + 0) := Nat.pos_pow_of_pos _ (by omega)
      simp only [selLoopEntries, if_pos (Or.inr hpos)]
      rw [if_pos (by norm_num)]
      have hcd : ceilDiv (2 ^ (j - 1)) (2 ^ (j - 1)) = 1 := by
        simpa using ceilDiv_pow_pow (j - 1) (j - 1) le_rfl
      simp [hcd]
  | succ d ih =>
      intro j fuel hj hfuel
      obtain ⟨f, rfl⟩ : ∃ f, fuel = f + 1 := ⟨fuel - 1, by omega⟩
      have hpos : 0 < 2 ^ (j - 1 + (d + 1)) := Nat.pos_pow_of_pos _ (by omega)
      simp only [selLoopEntries, if_pos (Or.inr hpos)]
      have hne : ¬ (2 ^ (j - 1 + (d + 1)) = 2 ^ (j - 1)) := by
        intro h
        have := Nat.pow_right_injective (le_refl 2) h
        omega
      rw [if_neg hne]
      have hrw : j - 1 + (d + 1) = (j + 1) - 1 + d := by omega
      have hrec := ih (j + 1) f (by omega) (by omega)
      rw [hrw]
      have hcd : ceilDiv (2 ^ ((j + 1) - 1 + d)) (2 ^ (j - 1)) = 2 ^ (d + 1) := by
        have := ceilDiv_pow_pow ((j + 1) - 1 + d) (j - 1) (by omega)
        have he : (j + 1) - 1 + d - (j - 1) = d + 1 := by omega
        rw [this, he]
      simp only [List.map_cons, List.sum_cons, hrec, hcd]
      have : 0 < 2 ^ (d + 1) := Nat.pos_pow_of_pos _ (by omega)
      have h2 : (2 : Nat) ^ (d + 2) = 2 ^ (d + 1) + 2 ^ (d + 1) := by ring
      have h3 : (2 : Nat) ^ (d + 1 + 1) = 2 ^ (d + 2) := by ring
      omega

theorem selLoopEntries_rounds_ge :
    ∀ fuel j T, 2 ≤ j → ∀ e ∈ selLoopEntries T fuel j, 2 ≤ e.1 := by
  intro fuel
  induction fuel with
  | zero => intro j T hj e he; simp [selLoopEntries] at he
  | succ f ih =>
      intro j T hj e he
      by_cases hc : j = 2 ∨ 0 < T
      · simp only [selLoopEntries, if_pos hc] at he
        rcases List.mem_cons.mp he with h | h
        · simp [h]; omega
        · by_cases hb : T = 2 ^ (j - 1)
          · simp [hb] at h
          · rw [if_neg hb] at h
            exact ih (j + 1) T (by omega) e h
      · simp [selLoopEntries, if_neg hc] at he

theorem expandEntries_length :
    ∀ (entries : List (Nat × Nat)) (startIdx : Nat),
      (expandEntries entries startIdx).length = (entries.map Prod.snd).sum := by
  intro entries
  induction entries with
  | nil => intro s; simp [expandEntries]
  | cons e rest ih =>
      intro s
      obtain ⟨j, c⟩ := e
      simp [expandEntries, ih]

theorem expandEntries_round :
    ∀ (entries : List (Nat × Nat)) (startIdx : Nat) (m : MatchR),
      m ∈ expandEntries entries startIdx → ∃ jc ∈ entries, m.round = some jc.1 := by
  intro entries
  induction entries with
  | nil => intro s m hm; simp [expandEntries] at hm
  | cons e rest ih =>
      intro s m hm
      obtain ⟨j, c⟩ := e
      simp only [expandEntries, List.mem_append, List.mem_map] at hm
      rcases hm with ⟨i, _, rfl⟩ | hm
      · exact ⟨(j, c), List.mem_cons_self _ _, rfl⟩
      · obtain ⟨jc, hjc, hr⟩ := ih (s + c) m hm
        exact ⟨jc, List.mem_cons_of_mem _ hjc, hr⟩

theorem map_round_modify (f : MatchR → MatchR) (hf : ∀ m, (f m).round = m.round)
    (i : Nat) (l : List MatchR) :
    (List.modify f i l).map MatchR.round = l.map MatchR.round := by
  apply List.ext_getElem?
  intro j
  rw [List.getElem?_map, List.getElem?_map, List.getElem?_modify]
  cases l[j]? with
  | none => rfl
  | some m =>
      by_cases h : i = j <;> simp [h, hf]

theorem seedPairs_map_round (playing : List ParticipantR) :
    ∀ (is : List Nat) (br : List MatchR),
      ((is.foldl (fun br i =>
          match playing[i]?, playing[playing.length - 1 - i]? with
          | some p1, some p2 =>
              List.modify (fun m => { m with participantIds := [p1.id, p2.id] }) i br
          | _, _ => br) br).map MatchR.round) = br.map MatchR.round := by
  intro is
  induction is with
  | nil => intro br; simp
  | cons i rest ih =>
      intro br
      rw [List.foldl_cons]
      cases h1 : playing[i]? with
      | none => simp only [h1]; exact ih br
      | some p1 =>
          cases h2 : playing[playing.length - 1 - i]? with
          | none => simp only [h1, h2]; exact ih br
          | some p2 =>
              simp only [h1, h2]
              rw [ih]
              exact map_round_modify
                (fun m => { m with participantIds := [p1.id, p2.id] })
                (fun m => rfl) i br

theorem seedPairs_round (br : List MatchR) (playing : List ParticipantR) (r1 : Nat) :
    (seedPairs br playing r1).map MatchR.round = br.map MatchR.round :=
  seedPairs_map_round playing (List.range r1) br

theorem pushByes_map_round :
    ∀ (bps : List (Nat × ParticipantR)) (br : List MatchR) (r1 : Nat),
      ((bps.foldl (fun br ip =>
          let mi := r1 + ip.1 / 2
          if mi < br.length then
            List.modify (fun m => { m with participantIds := m.participantIds ++ [ip.2.id] })
              mi br
          else br) br).map MatchR.round) = br.map MatchR.round := by
  intro bps
  induction bps with
  | nil => intro br r1; simp
  | cons ip rest ih =>
      intro br r1
      rw [List.foldl_cons]
      by_cases h : r1 + ip.1 / 2 < br.length
      · simp only [if_pos h]
        rw [ih]
        exact map_round_modify
          (fun m => { m with participantIds := m.participantIds ++ [ip.2.id] })
          (fun m => rfl) (r1 + ip.1 / 2) br
      · simp only [if_neg h]
        exact ih br r1

theorem pushByes_round (br : List MatchR) (bps : List ParticipantR) (r1 : Nat) :
    (pushByes br bps r1).map MatchR.round = br.map MatchR.round :=
  pushByes_map_round bps.enum br r1

theorem seGenerateBracket_round (ps : List ParticipantR) :
    (seGenerateBracket ps).map MatchR.round = (seSkeleton ps.length).map MatchR.round := by
  unfold seGenerateBracket
  rw [pushByes_round, seedPairs_round]

theorem seSkeleton_length (n : Nat) (h3 : 3 ≤ n) :
    (seSkeleton n).length = n - 1 := by
  have hle : n ≤ 2 ^ ceilLog2 n := le_pow_ceilLog2 n
  have hr2 : 2 ≤ ceilLog2 n := by
    by_contra h
    push_neg at h
    interval_cases hr : (ceilLog2 n) <;> simp [hr] at hle <;> omega
  have hlt : 2 ^ (ceilLog2 n - 1) < n := ceilLog2_min n _ (by omega)
  set r := ceilLog2 n with hr
  have hpow : 2 ^ r = 2 * 2 ^ (r - 1) := by
    rw [← pow_succ']
    congr 1
    omega
  set P := 2 ^ (r - 1) with hP
  have hT : seFirstRoundMatches n + seByes n = P := by
    unfold seFirstRoundMatches seByes
    rw [← hr]
    omega
  have hfuel : r - 1 ≤ n := by
    have := ceilLog2_le_self n
    omega
  have hsum : ((selLoopEntries (2 ^ (1 + (r - 2))) n 2).map Prod.snd).sum
      = 2 ^ (r - 2 + 1) - 1 := by
    exact selLoopEntries_pow_sum (r - 2) 2 n (by omega) (by omega)
  have hexp : 1 + (r - 2) = r - 1 := by omega
  rw [hexp] at hsum
  unfold seSkeleton
  rw [List.length_append, List.length_map, List.length_range, expandEntries_length, hT]
  rw [← hP] at hsum
  rw [hsum]
  have hP1 : 2 ^ (r - 2 + 1) = P := by
    rw [hP]
    congr 1
    omega
  rw [hP1]
  have hr1 : seFirstRoundMatches n = n - P := by
    unfold seFirstRoundMatches seByes
    rw [← hr]
    omega
  omega

theorem seSkeleton_round_one_count (n : Nat) (h3 : 3 ≤ n) :
    List.countP (fun r => r == some 1) ((seSkeleton n).map MatchR.round)
      = seFirstRoundMatches n := by
  unfold seSkeleton
  rw [List.map_append, List.countP_append]
  have h1 : List.countP (fun r => r == some 1)
      (((List.range (seFirstRoundMatches n)).map
        (fun i => mkEmptyMatch i (i + 1) 1)).map MatchR.round)
      = seFirstRoundMatches n := by
    rw [List.map_map, List.countP_map]
    have hlen := List.countP_eq_length.mpr
      (fun a (_ : a ∈ List.range (seFirstRoundMatches n)) =>
        (by simp [mkEmptyMatch] :
          ((fun r => r == some 1) ∘ MatchR.round ∘ fun i => mkEmptyMatch i (i + 1) 1) a = true))
    rw [hlen, List.length_range]
  have h2 : List.countP (fun r => r == some 1)
      ((expandEntries (selLoopEntries (seFirstRoundMatches n + seByes n) n 2)
        (seFirstRoundMatches n)).map MatchR.round) = 0 := by
    rw [List.countP_map]
    rw [List.countP_eq_zero]
    intro m hm
    obtain ⟨jc, hjc, hr⟩ := expandEntries_round _ _ m hm
    have hge := selLoopEntries_rounds_ge n 2 _ (by omega) jc hjc
    simp only [Function.comp]
    rw [hr]
    simp
    omega
  omega

/-- C2 (counterexample): with 5 participants, `start()` builds a bracket of
4 matches, not `2 ^ ceil(log2 5) - 1 = 7` as the claim states. -/
theorem seStart_five_not_seven :
    (seStart ps5c ⟨false, false⟩).map (fun s => s.bracket.length) = .ok 4 ∧
      2 ^ ceilLog2 5 - 1 = 7 ∧ (4 : Nat) ≠ 7 := by
  refine ⟨?_, by decide, by decide⟩
  decide

/-- C2 (amended): for every participant count N ≥ 3, `start()` of a
head-to-head single-elimination tournament succeeds and builds a bracket of
exactly N - 1 matches (the construction is a compact bracket, which equals
`2 ^ ceil(log2 N) - 1` only when N is a power of two); the number of byes is
`2 ^ ceil(log2 N) - N`, exactly `(N - byes) / 2` matches carry round
number 1, and no third-place match exists at start (it can only be appended
later, on completion of the final, when the option is enabled).  For N = 5
this gives 4 matches, 3 byes and exactly 1 round-1 match.  (For N = 2 the
source's round-size loop never reaches its exit condition.) -/
theorem seStart_bracket_count (ps : List ParticipantR) (opts : SEOptions)
    (h3 : 3 ≤ ps.length) :
    ∃ s, seStart ps opts = .ok s ∧
      s.bracket.length = ps.length - 1 ∧
      s.bracket.countP (fun m => m.round == some 1)
        = (ps.length - seByes ps.length) / 2 ∧
      s.thirdPlace = none := by
  have hok : seStart ps opts = .ok
      { bracket := seGenerateBracket ps, thirdPlace := none, opts := opts,
        started := true, completed := false, nextId := (seGenerateBracket ps).length } := by
    unfold seStart
    rw [if_neg (by omega)]
  refine ⟨_, hok, ?_, ?_, rfl⟩
  · have h1 : (seGenerateBracket ps).length = (seSkeleton ps.length).length := by
      have := congrArg List.length (seGenerateBracket_round ps)
      simpa using this
    simp only [h1]
    exact seSkeleton_length ps.length h3
  · have h2 : (seGenerateBracket ps).countP (fun m => m.round == some 1)
        = List.countP (fun r => r == some 1) ((seGenerateBracket ps).map MatchR.round) := by
      rw [List.countP_map]
      rfl
    rw [h2, seGenerateBracket_round, seSkeleton_round_one_count ps.length h3]
    rfl

/-- Witness for C2's amended theorem at the concrete 5-participant roster. -/
theorem seStart_bracket_count_witness :
    3 ≤ ps5c.length ∧
      (∃ s, seStart ps5c ⟨false, false⟩ = .ok s ∧
        s.bracket.length = ps5c.length - 1 ∧
        s.bracket.countP (fun m => m.round == some 1)
          = (ps5c.length - seByes ps5c.length) / 2 ∧
        s.thirdPlace = none) :=
  ⟨by decide, seStart_bracket_count ps5c ⟨false, false⟩ (by decide)⟩

theorem mem_pushIfAbsent (w : Nat) (m : MatchR) :
    w ∈ (pushIfAbsent w m).participantIds := by
  unfold pushIfAbsent
  by_cases h : w ∈ m.participantIds
  · rw [if_pos h]; exact h
  · rw [if_neg h]; simp

theorem seMakeThirdPlace_bracket (s : SEState) (i w : Nat) :
    (seMakeThirdPlace s i w).bracket = s.bracket := by
  unfold seMakeThirdPlace
  split
  · cases seFinalLoser s i w with
    | none => rfl
    | some l =>
        simp only []
        split
        · rfl
        · rfl
  · rfl

/-- C7: in head-to-head single elimination, completing the match at 0-based
flat index i with i < total - 1 pushes the winner into the match at flat
index `total - floor((total - i) / 2)` (a strictly later, in-range index) and
leaves every other bracket entry unchanged; completing the final match
(index total - 1) leaves the whole bracket unchanged, so the winner is pushed
into no further bracket match. -/
theorem advanceWinnerHeadToHead_spec (s : SEState) (i w : Nat)
    (hi : i < s.bracket.length) :
    (i + 1 < s.bracket.length →
      (advanceWinnerHeadToHead s i w).bracket =
        List.modify (pushIfAbsent w) (s.bracket.length - (s.bracket.length - i) / 2)
          s.bracket ∧
      s.bracket.length - (s.bracket.length - i) / 2 < s.bracket.length ∧
      i < s.bracket.length - (s.bracket.length - i) / 2 ∧
      w ∈ ((advanceWinnerHeadToHead s i w).bracket.getD
            (s.bracket.length - (s.bracket.length - i) / 2)
            (mkEmptyMatch 0 0 0)).participantIds ∧
      (∀ j, j ≠ s.bracket.length - (s.bracket.length - i) / 2 →
        (advanceWinnerHeadToHead s i w).bracket[j]? = s.bracket[j]?)) ∧
    (i + 1 = s.bracket.length →
      (advanceWinnerHeadToHead s i w).bracket = s.bracket) := by
  constructor
  · intro hlt
    have hne : ¬ (i = s.bracket.length - 1) := by omega
    have hnext : s.bracket.length - (s.bracket.length - i) / 2 < s.bracket.length := by
      omega
    have hresult : (advanceWinnerHeadToHead s i w).bracket =
        List.modify (pushIfAbsent w) (s.bracket.length - (s.bracket.length - i) / 2)
          s.bracket := by
      unfold advanceWinnerHeadToHead
      rw [if_neg hne, if_pos hnext]
    refine ⟨hresult, hnext, by omega, ?_, ?_⟩
    · rw [hresult]
      have hsome : s.bracket[s.bracket.length - (s.bracket.length - i) / 2]?
          = some (s.bracket.getD (s.bracket.length - (s.bracket.length - i) / 2)
            (mkEmptyMatch 0 0 0)) := by
        rw [List.getElem?_eq_getElem hnext]
        rw [List.getD_eq_getElem s.bracket _ hnext]
      have hmod := List.getElem?_modify (pushIfAbsent w)
        (s.bracket.length - (s.bracket.length - i) / 2) s.bracket
        (s.bracket.length - (s.bracket.length - i) / 2)
      rw [hsome] at hmod
      simp only [if_pos rfl, Option.map_some'] at hmod
      have hlen : s.bracket.length - (s.bracket.length - i) / 2 <
          (List.modify (pushIfAbsent w)
            (s.bracket.length - (s.bracket.length - i) / 2) s.bracket).length := by
        rw [List.length_modify]
        exact hnext
      rw [List.getD_eq_getElem _ _ hlen]
      have : (List.modify (pushIfAbsent w)
          (s.bracket.length - (s.bracket.length - i) / 2) s.bracket)[
            s.bracket.length - (s.bracket.length - i) / 2]?
          = some ((List.modify (pushIfAbsent w)
            (s.bracket.length - (s.bracket.length - i) / 2) s.bracket)[
              s.bracket.length - (s.bracket.length - i) / 2]) :=
        List.getElem?_eq_getElem hlen
      rw [this] at hmod
      have heq := Option.some.inj hmod
      rw [heq]
      simpa using mem_pushIfAbsent w
        (s.bracket.getD (s.bracket.length - (s.bracket.length - i) / 2) (mkEmptyMatch 0 0 0))
    · intro j hj
      rw [hresult, List.getElem?_modify]
      cases s.bracket[j]? with
      | none => rfl
      | some m => simp [Ne.symm hj]
  · intro heq
    have hfinal : i = s.bracket.length - 1 := by omega
    unfold advanceWinnerHeadToHead
    rw [if_pos hfinal]
    exact seMakeThirdPlace_bracket s i w

/-- Witness for C7 at a concrete 4-match bracket, completing match 0. -/
theorem advanceWinnerHeadToHead_spec_witness :
    0 < seW.bracket.length ∧
      ((0 + 1 < seW.bracket.length →
        (advanceWinnerHeadToHead seW 0 4).bracket =
          List.modify (pushIfAbsent 4) (seW.bracket.length - (seW.bracket.length - 0) / 2)
            seW.bracket ∧
        seW.bracket.length - (seW.bracket.length - 0) / 2 < seW.bracket.length ∧
        0 < seW.bracket.length - (seW.bracket.length - 0) / 2 ∧
        4 ∈ ((advanceWinnerHeadToHead seW 0 4).bracket.getD
              (seW.bracket.length - (seW.bracket.length - 0) / 2)
              (mkEmptyMatch 0 0 0)).participantIds ∧
        (∀ j, j ≠ seW.bracket.length - (seW.bracket.length - 0) / 2 →
          (advanceWinnerHeadToHead seW 0 4).bracket[j]? = seW.bracket[j]?)) ∧
      (0 + 1 = seW.bracket.length →
        (advanceWinnerHeadToHead seW 0 4).bracket = seW.bracket)) :=
  ⟨by decide, advanceWinnerHeadToHead_spec seW 0 4 (by decide)⟩

theorem mapGetD_mapSet_ne (m : List (Nat × Nat)) (l v k : Nat) (h : k ≠ l) :
    mapGetD (mapSet m l v) k = mapGetD m k := by
  induction m with
  | nil =>
      have hb : (k == l) = false := beq_eq_false_iff_ne.mpr h
      simp [mapSet, mapGetD, List.lookup, hb]
  | cons kv rest ih =>
      obtain ⟨k', v'⟩ := kv
      by_cases hk : k' = l
      · subst hk
        have hb : (k == k') = false := beq_eq_false_iff_ne.mpr h
        simp [mapSet, mapGetD, List.lookup, hb]
      · simp only [mapSet, if_neg hk, mapGetD, List.lookup]
        by_cases hkk : (k == k') = true
        · simp [hkk]
        · have hb : (k == k') = false := by simpa using hkk
          simp only [hb]
          exact ih

/-- C1: exporting immediately after `start()` of a split-start
double-elimination tournament and importing the snapshot does not restore the
engine: the two losers-bracket starters held loss count 1 before export,
`importState` rebuilds their counters as 0 (it counts only completed-match
losses), and `getStandings()` of the imported engine therefore differs from
the pre-export standings (`getCurrentMatches()` happens to agree). -/
theorem deImport_export_loses_split_losses :
    (deStart ps4c ⟨true, false⟩).toOption.map
      (fun s => (mapGetD s.participantLosses 3,
        mapGetD (deImportState s (deExportState s)).participantLosses 3,
        decide (deGetStandings (deImportState s (deExportState s)) = deGetStandings s),
        decide (deGetCurrentMatches (deImportState s (deExportState s))
          = deGetCurrentMatches s)))
      = some (1, 0, false, true) := by decide

/-- C4: a legitimate play sequence of an 8-player double-elimination
tournament (every recorded match is offered by `getCurrentMatches()` with the
winner among its two participants) reaches a state in which
`getCurrentMatches()` returns an uncompleted match (the grand-final reset)
containing a participant whose recorded loss count is already 2. -/
theorem deTwiceBeaten_in_current_matches :
    (deStart ps8c ⟨false, false⟩).toOption.map (fun s0 => deSeqLegit s0 deSeqC4)
        = some true ∧
      ((deStart ps8c ⟨false, false⟩).toOption.bind
          (fun s0 => (deRunSeq s0 deSeqC4).toOption)).map
        (fun s => decide (∃ m ∈ deGetCurrentMatches s, m.status ≠ .completed ∧
            ∃ p ∈ m.participantIds, 2 ≤ mapGetD s.participantLosses p))
        = some true ∧
      ((deStart ps8c ⟨false, false⟩).toOption.bind
          (fun s0 => (deRunSeq s0 deSeqC4).toOption)).map
        (fun s => (s.grandFinalReset.map MatchR.participantIds,
          mapGetD s.participantLosses 2))
        = some (some [8, 2], 2) :=
  ⟨by decide, by decide, by decide⟩

/-- C3: completing the grand final creates exactly one bracket-reset match
between the same two entrants if and only if the grand-final winner's
recorded loss count is 1; with any other count (in particular 0, the
winners-bracket entrant) the tournament is marked completed immediately and
no reset match is created. -/
theorem deRecord_grandFinal_reset_iff
    (s : DEState) (gf : MatchR) (a b w : Nat)
    (hs : s.started = true)
    (hgf : s.grandFinal = some gf)
    (hwb : ∀ m ∈ s.winnersBracket, m.id ≠ gf.id)
    (hlb : ∀ m ∈ s.losersBracket, m.id ≠ gf.id)
    (hst : gf.status ≠ .completed)
    (hp : gf.participantIds = [a, b])
    (hw : w = a ∨ w = b)
    (hab : a ≠ b)
    (hr0 : s.grandFinalReset = none) :
    ∃ s', deRecord s gf.id w = .ok s' ∧
      (mapGetD s.participantLosses w = 1 →
        ∃ rm, s'.grandFinalReset = some rm ∧ rm.status = .pending ∧
          rm.participantIds = [w, if w = a then b else a] ∧
          s'.completed = s.completed) ∧
      (mapGetD s.participantLosses w ≠ 1 →
        s'.grandFinalReset = none ∧ s'.completed = true) := by
  have hwbnone : s.winnersBracket.findIdx? (fun m => m.id == gf.id) = none := by
    rw [List.findIdx?_eq_none_iff]
    intro m hm
    exact beq_eq_false_iff_ne.mpr (hwb m hm)
  have hlbnone : s.losersBracket.findIdx? (fun m => m.id == gf.id) = none := by
    rw [List.findIdx?_eq_none_iff]
    intro m hm
    exact beq_eq_false_iff_ne.mpr (hlb m hm)
  have hwl : w ≠ (if w = a then b else a) := by
    rcases hw with rfl | rfl
    · simpa using hab
    · by_cases hba : w = a
      · exact absurd hba.symm hab
      · simpa [hba] using (Ne.symm hab)
  have hloser : gf.participantIds.find? (fun id => id != w) =
      some (if w = a then b else a) := by
    rcases hw with rfl | rfl
    · have h1 : (w != w) = false := by simp
      have h2 : (b != w) = true := by
        simpa using (Ne.symm hab)
      rw [hp]
      simp [List.find?, h1, h2]
    · have h1 : (a != w) = true := by simpa using hab
      have hba : ¬ (w = a) := fun h => hab h.symm
      rw [hp]
      simp [List.find?, h1, hba]
  unfold deRecord
  rw [hs]
  rw [if_neg (by simp)]
  rw [hwbnone, hlbnone]
  simp only [hgf]
  rw [if_pos trivial, if_neg hst]
  rw [hloser]
  simp only []
  refine ⟨_, rfl, ?_, ?_⟩
  · intro h1
    have hget : mapGetD (mapSet s.participantLosses (if w = a then b else a)
        (mapGetD s.participantLosses (if w = a then b else a) + 1)) w = 1 := by
      rw [mapGetD_mapSet_ne _ _ _ _ hwl]
      exact h1
    unfold deHandleGrandFinalResult
    rw [if_pos hget]
    exact ⟨_, rfl, rfl, rfl, rfl⟩
  · intro h1
    have hget : mapGetD (mapSet s.participantLosses (if w = a then b else a)
        (mapGetD s.participantLosses (if w = a then b else a) + 1)) w ≠ 1 := by
      rw [mapGetD_mapSet_ne _ _ _ _ hwl]
      exact h1
    unfold deHandleGrandFinalResult
    rw [if_neg hget]
    exact ⟨hr0, rfl⟩

/-- Witness for C3: participant 1 (one loss, losers-bracket entrant) wins the
concrete grand final, so a reset match between 1 and 2 is created. -/
theorem deRecord_grandFinal_reset_iff_witness :
    deC3s.started = true ∧ deC3s.grandFinal = some gfC3 ∧
      (∀ m ∈ deC3s.winnersBracket, m.id ≠ gfC3.id) ∧
      (∀ m ∈ deC3s.losersBracket, m.id ≠ gfC3.id) ∧
      gfC3.status ≠ .completed ∧ gfC3.participantIds = [1, 2] ∧
      ((1 : Nat) = 1 ∨ (1 : Nat) = 2) ∧ (1 : Nat) ≠ 2 ∧
      deC3s.grandFinalReset = none ∧
      (∃ s', deRecord deC3s gfC3.id 1 = .ok s' ∧
        (mapGetD deC3s.participantLosses 1 = 1 →
          ∃ rm, s'.grandFinalReset = some rm ∧ rm.status = .pending ∧
            rm.participantIds = [1, if (1 : Nat) = 1 then 2 else 1] ∧
            s'.completed = deC3s.completed) ∧
        (mapGetD deC3s.participantLosses 1 ≠ 1 →
          s'.grandFinalReset = none ∧ s'.completed = true)) :=
  ⟨by decide, by decide, by decide, by decide, by decide, by decide, by decide,
    by decide, by decide,
    deRecord_grandFinal_reset_iff deC3s gfC3 1 2 1 (by decide) (by decide)
      (by decide) (by decide) (by decide) (by decide) (by decide) (by decide)
      (by decide)⟩

theorem charListCmp_swap : ∀ a b : List Char, charListCmp b a = -charListCmp a b := by
  intro a
  induction a with
  | nil => intro b; cases b <;> simp [charListCmp]
  | cons x as ih =>
      intro b
      cases b with
      | nil => simp [charListCmp]
      | cons y bs =>
          rcases lt_trichotomy x y with h | h | h
          · simp [charListCmp, h, lt_asymm h]
          · subst h
            simp [charListCmp, lt_irrefl, ih bs]
          · simp [charListCmp, h, lt_asymm h]

theorem charListCmp_le_trans :
    ∀ a b c : List Char, charListCmp a b ≤ 0 → charListCmp b c ≤ 0 →
      charListCmp a c ≤ 0 := by
  intro a
  induction a with
  | nil =>
      intro b c _ _
      cases c <;> simp [charListCmp]
  | cons x as ih =>
      intro b c h1 h2
      cases b with
      | nil => simp [charListCmp] at h1
      | cons y bs =>
          cases c with
          | nil => simp [charListCmp] at h2
          | cons z cs =>
              rcases lt_trichotomy x y with hxy | hxy | hxy
              · rcases lt_trichotomy y z with hyz | hyz | hyz
                · simp [charListCmp, lt_trans hxy hyz]
                · subst hyz; simp [charListCmp, hxy]
                · simp [charListCmp, lt_asymm hyz, hyz] at h2
              · subst hxy
                rcases lt_trichotomy x z with hxz | hxz | hxz
                · simp [charListCmp, hxz]
                · subst hxz
                  simp only [charListCmp, lt_irrefl, if_false] at h1 h2 ⊢
                  exact ih bs cs h1 h2
                · simp [charListCmp, lt_asymm hxz, hxz] at h2
              · simp [charListCmp, lt_asymm hxy, hxy] at h1

theorem charListCmp_total (a b : List Char) :
    charListCmp a b ≤ 0 ∨ charListCmp b a ≤ 0 := by
  by_cases h : charListCmp a b ≤ 0
  · exact Or.inl h
  · right
    rw [charListCmp_swap]
    omega

theorem rrCmpWins_le_iff (a b : StandingR) :
    rrCmpWins a b ≤ 0 ↔ rrWinsOrder a b := by
  unfold rrCmpWins rrWinsOrder
  by_cases hw : a.wins = b.wins
  · rw [if_neg (by omega)]
    by_cases hl : a.losses = b.losses
    · rw [if_neg (by omega)]
      unfold localeCompare
      constructor
      · intro h
        exact Or.inr ⟨hw, Or.inr ⟨hl, h⟩⟩
      · intro h
        rcases h with h | ⟨_, h⟩
        · omega
        · rcases h with h | ⟨_, h⟩
          · omega
          · exact h
    · rw [if_pos hl]
      constructor
      · intro h
        exact Or.inr ⟨hw, Or.inl (by omega)⟩
      · intro h
        rcases h with h | ⟨_, h⟩
        · omega
        · rcases h with h | ⟨h, _⟩
          · omega
          · omega
  · rw [if_pos hw]
    constructor
    · intro h
      exact Or.inl (by omega)
    · intro h
      rcases h with h | ⟨h, _⟩
      · omega
      · omega

theorem rrWinsOrder_total (a b : StandingR) : rrWinsOrder a b ∨ rrWinsOrder b a := by
  unfold rrWinsOrder
  rcases lt_trichotomy a.wins b.wins with h | h | h
  · right; exact Or.inl h
  · rcases lt_trichotomy a.losses b.losses with h2 | h2 | h2
    · left; exact Or.inr ⟨h, Or.inl h2⟩
    · rcases charListCmp_total a.participantName.data b.participantName.data with h3 | h3
      · left; exact Or.inr ⟨h, Or.inr ⟨h2, h3⟩⟩
      · right; exact Or.inr ⟨h.symm, Or.inr ⟨h2.symm, h3⟩⟩
    · right; exact Or.inr ⟨h.symm, Or.inl h2⟩
  · left; exact Or.inl h

theorem rrWinsOrder_trans (a b c : StandingR)
    (h1 : rrWinsOrder a b) (h2 : rrWinsOrder b c) : rrWinsOrder a c := by
  unfold rrWinsOrder at h1 h2 ⊢
  rcases h1 with h1 | ⟨hw1, h1⟩
  · rcases h2 with h2 | ⟨hw2, _⟩
    · exact Or.inl (by omega)
    · exact Or.inl (by omega)
  · rcases h2 with h2 | ⟨hw2, h2⟩
    · exact Or.inl (by omega)
    · rcases h1 with h1 | ⟨hl1, h1⟩
      · rcases h2 with h2 | ⟨hl2, _⟩
        · exact Or.inr ⟨by omega, Or.inl (by omega)⟩
        · exact Or.inr ⟨by omega, Or.inl (by omega)⟩
      · rcases h2 with h2 | ⟨hl2, h2⟩
        · exact Or.inr ⟨by omega, Or.inl (by omega)⟩
        · exact Or.inr ⟨by omega, Or.inr ⟨by omega,
            charListCmp_le_trans _ _ _ h1 h2⟩⟩

theorem rrLeWins_total (a b : StandingR) :
    ((fun a b => decide (rrCmpWins a b ≤ 0)) a b
      || (fun a b => decide (rrCmpWins a b ≤ 0)) b a) = true := by
  simp only [Bool.or_eq_true, decide_eq_true_iff]
  rw [rrCmpWins_le_iff, rrCmpWins_le_iff]
  exact rrWinsOrder_total a b

theorem rrLeWins_trans (a b c : StandingR)
    (h1 : (fun a b => decide (rrCmpWins a b ≤ 0)) a b = true)
    (h2 : (fun a b => decide (rrCmpWins a b ≤ 0)) b c = true) :
    (fun a b => decide (rrCmpWins a b ≤ 0)) a c = true := by
  simp only [decide_eq_true_iff] at h1 h2 ⊢
  rw [rrCmpWins_le_iff] at h1 h2 ⊢
  exact rrWinsOrder_trans a b c h1 h2

theorem mem_assignRanksGo :
    ∀ (l : List StandingR) (i : Nat) (y : StandingR), y ∈ assignRanksGo i l →
      ∃ x ∈ l, ∃ k, y = { x with rank := k } := by
  intro l
  induction l with
  | nil => intro i y hy; simp [assignRanksGo] at hy
  | cons st rest ih =>
      intro i y hy
      rw [assignRanksGo, List.mem_cons] at hy
      rcases hy with hy | hy
      · exact ⟨st, List.mem_cons_self _ _, i + 1, hy⟩
      · obtain ⟨x, hx, k, hk⟩ := ih (i + 1) y hy
        exact ⟨x, List.mem_cons_of_mem _ hx, k, hk⟩

theorem pairwise_assignRanksGo (R : StandingR → StandingR → Prop)
    (hR : ∀ x y kx ky, R x y → R { x with rank := kx } { y with rank := ky }) :
    ∀ (l : List StandingR) (i : Nat), List.Pairwise R l →
      List.Pairwise R (assignRanksGo i l) := by
  intro l
  induction l with
  | nil => intro i _; simp [assignRanksGo]
  | cons st rest ih =>
      intro i hp
      rcases List.pairwise_cons.mp hp with ⟨hhead, htail⟩
      rw [assignRanksGo]
      refine List.pairwise_cons.mpr ⟨?_, ih (i + 1) htail⟩
      intro y hy
      obtain ⟨x, hx, k, hk⟩ := mem_assignRanksGo rest (i + 1) y hy
      subst hk
      exact hR st x (i + 1) k (hhead x hx)

theorem rrWinsOrder_rank_invariant (x y : StandingR) (kx ky : Nat)
    (h : rrWinsOrder x y) :
    rrWinsOrder { x with rank := kx } { y with rank := ky } := h

theorem assignRanksGo_map_erase :
    ∀ (l : List StandingR) (i : Nat),
      (assignRanksGo i l).map eraseRank = l.map eraseRank := by
  intro l
  induction l with
  | nil => intro i; rfl
  | cons st rest ih =>
      intro i
      rw [assignRanksGo, List.map_cons, List.map_cons, ih]
      rfl

theorem assignRanksGo_rank :
    ∀ (l : List StandingR) (i j : Nat), j < (assignRanksGo i l).length →
      ((assignRanksGo i l).getD j stDefault).rank = i + j + 1 := by
  intro l
  induction l with
  | nil => intro i j h; simp [assignRanksGo] at h
  | cons st rest ih =>
      intro i j h
      cases j with
      | zero => rfl
      | succ j' =>
          simp only [assignRanksGo] at h ⊢
          rw [List.getD_cons_succ]
          have := ih (i + 1) j' (by simpa using h)
          rw [this]
          omega

theorem rrEntries_map_erase (s : RRState) :
    (rrEntries s).map eraseRank = rrEntries s := by
  unfold rrEntries
  rw [List.map_map]
  rfl

/-- C9 (counterexample): three participants, one round, wins ranking; Ann
beats Bob, both of Cid's matches are ties.  Bob and Cid have equal wins, Bob
precedes Cid in name order, yet the standings place Cid before Bob (the
comparator breaks the tie by losses ascending before the name). -/
theorem rrStandings_name_tiebreak_fails :
    rr3played.toOption.map (fun s => (rrGetStandings s).map
        (fun st => (st.participantName, st.wins)))
      = some [("Ann", 1), ("Cid", 0), ("Bob", 0)] ∧
    localeCompare "Bob" "Cid" < 0 :=
  ⟨by decide, by decide⟩

/-- C9 (amended): in round-robin head-to-head mode with rankingMethod =
wins, `getStandings()` returns the tallied participant records sorted by
wins descending, with ties broken by losses ascending and then by
name ascending, ranks assigned 1-based in that order. -/
theorem rrGetStandings_wins_sorted (s : RRState)
    (hm : s.opts.rankingMethod = .wins) :
    List.Pairwise rrWinsOrder (rrGetStandings s) ∧
      (∀ j, j < (rrGetStandings s).length →
        ((rrGetStandings s).getD j stDefault).rank = j + 1) ∧
      List.Perm ((rrGetStandings s).map eraseRank) (rrEntries s) := by
  have hdef : rrGetStandings s =
      assignRanks (sortJS (fun a b => decide (rrCmpWins a b ≤ 0)) (rrEntries s)) := by
    unfold rrGetStandings
    rw [if_pos hm]
  refine ⟨?_, ?_, ?_⟩
  · rw [hdef]
    unfold assignRanks
    apply pairwise_assignRanksGo rrWinsOrder rrWinsOrder_rank_invariant
    have hp := sortJS_pairwise (fun a b => decide (rrCmpWins a b ≤ 0))
      rrLeWins_total rrLeWins_trans (rrEntries s)
    refine hp.imp ?_
    intro a b hab
    rw [← rrCmpWins_le_iff]
    simpa using hab
  · intro j h
    rw [hdef] at h ⊢
    unfold assignRanks at h ⊢
    have := assignRanksGo_rank
      (sortJS (fun a b => decide (rrCmpWins a b ≤ 0)) (rrEntries s)) 0 j h
    rw [this]
    omega
  · rw [hdef]
    unfold assignRanks
    rw [assignRanksGo_map_erase]
    have hperm := (sortJS_perm (fun a b => decide (rrCmpWins a b ≤ 0))
      (rrEntries s)).map eraseRank
    rw [rrEntries_map_erase] at hperm
    exact hperm

/-- Witness for C9's amended theorem on the concrete three-participant
state. -/
theorem rrGetStandings_wins_sorted_witness :
    rrWState.opts.rankingMethod = .wins ∧
      (List.Pairwise rrWinsOrder (rrGetStandings rrWState) ∧
        (∀ j, j < (rrGetStandings rrWState).length →
          ((rrGetStandings rrWState).getD j stDefault).rank = j + 1) ∧
        List.Perm ((rrGetStandings rrWState).map eraseRank) (rrEntries rrWState)) :=
  ⟨by decide, rrGetStandings_wins_sorted rrWState (by decide)⟩

theorem mem_setAdd_of_mem (l : List Nat) (x y : Nat) (h : y ∈ l) : y ∈ setAdd l x := by
  unfold setAdd
  split
  · exact h
  · exact List.mem_append_left _ h

theorem mem_setAdd (l : List Nat) (x y : Nat) (h : y ∈ setAdd l x) : y ∈ l ∨ y = x := by
  unfold setAdd at h
  split at h
  · exact Or.inl h
  · rcases List.mem_append.mp h with h | h
    · exact Or.inl h
    · simp at h
      exact Or.inr h

theorem elimFold_mono (thr : Nat) :
    ∀ (rankings : List (Nat × Nat)) (el : List Nat) (y : Nat), y ∈ el →
      y ∈ rankings.foldl (fun el r => if thr < r.2 then setAdd el r.1 else el) el := by
  intro rankings
  induction rankings with
  | nil => intro el y h; exact h
  | cons r rest ih =>
      intro el y h
      rw [List.foldl_cons]
      apply ih
      split
      · exact mem_setAdd_of_mem el r.1 y h
      · exact h

theorem elimFold_src (thr : Nat) :
    ∀ (rankings : List (Nat × Nat)) (el : List Nat) (y : Nat),
      y ∈ rankings.foldl (fun el r => if thr < r.2 then setAdd el r.1 else el) el →
      y ∈ el ∨ ∃ q ∈ rankings, q.1 = y ∧ thr < q.2 := by
  intro rankings
  induction rankings with
  | nil => intro el y h; exact Or.inl h
  | cons r rest ih =>
      intro el y h
      rw [List.foldl_cons] at h
      rcases ih _ y h with h1 | ⟨q, hq, hy, hthr⟩
      · by_cases hr : thr < r.2
        · rw [if_pos hr] at h1
          rcases mem_setAdd el r.1 y h1 with h2 | h2
          · exact Or.inl h2
          · exact Or.inr ⟨r, List.mem_cons_self _ _, h2.symm, hr⟩
        · rw [if_neg hr] at h1
          exact Or.inl h1
      · exact Or.inr ⟨q, List.mem_cons_of_mem _ hq, hy, hthr⟩

theorem nodup_keys_unique :
    ∀ (l : List (Nat × Nat)), (l.map Prod.fst).Nodup →
      ∀ p a b, (p, a) ∈ l → (p, b) ∈ l → a = b := by
  intro l
  induction l with
  | nil => intro _ p a b ha _; simp at ha
  | cons x rest ih =>
      intro hnd p a b ha hb
      rw [List.map_cons, List.nodup_cons] at hnd
      obtain ⟨hx, hrest⟩ := hnd
      rw [List.mem_cons] at ha hb
      rcases ha with ha | ha <;> rcases hb with hb | hb
      · rw [← ha] at hb
        exact (congrArg Prod.snd hb).symm
      · exfalso
        apply hx
        rw [← ha]
        exact List.mem_map.mpr ⟨(p, b), hb, rfl⟩
      · exfalso
        apply hx
        rw [← hb]
        exact List.mem_map.mpr ⟨(p, a), ha, rfl⟩
      · exact ih hrest p a b ha hb

theorem ffaCheckRoundCompletion_elim (s : FFAState) :
    (ffaCheckRoundCompletion s).eliminatedParticipants = s.eliminatedParticipants := by
  simp only [ffaCheckRoundCompletion, ffaGenerateRound]
  repeat' split
  all_goals rfl

theorem ffaRecord_elim (s : FFAState) (mid : Nat) (res : MatchResultR)
    (s' : FFAState) (h : ffaRecord s mid res = .ok s') :
    s'.eliminatedParticipants =
      res.rankings.foldl
        (fun el r => if ffaThreshold s.opts < r.2 then setAdd el r.1 else el)
        s.eliminatedParticipants := by
  simp only [ffaRecord] at h
  split at h
  · cases h
  · split at h
    · cases h
    · split at h
      · cases h
      · split at h
        · cases h
        · split at h
          · cases h
          · split at h
            · cases h
            · split at h
              · cases h
              · have hs := Except.ok.inj h
                rw [← hs, ffaCheckRoundCompletion_elim]

/-- C8: across every sequence of successful `recordMatchResult` calls the
free-for-all eliminated-id set never loses a member, and a participant whose
(unique) ranking position in the completed match is at or above the
advancement threshold (position ≤ threshold) is never added to the
eliminated set by that match. -/
theorem ffaEliminated_monotone :
    (∀ s s', Relation.ReflTransGen FFAStep s s' →
      ∀ x ∈ s.eliminatedParticipants, x ∈ s'.eliminatedParticipants) ∧
    (∀ s mid res s' p pos, ffaRecord s mid res = .ok s' →
      (res.rankings.map Prod.fst).Nodup →
      (p, pos) ∈ res.rankings → pos ≤ ffaThreshold s.opts →
      p ∈ s'.eliminatedParticipants → p ∈ s.eliminatedParticipants) := by
  constructor
  · intro s s' hrt
    induction hrt with
    | refl => intro x hx; exact hx
    | tail _ hstep ih =>
        intro x hx
        obtain ⟨mid, res, hrec⟩ := hstep
        rw [ffaRecord_elim _ _ _ _ hrec]
        exact elimFold_mono _ _ _ x (ih x hx)
  · intro s mid res s' p pos hrec hnd hmem hle hp
    rw [ffaRecord_elim _ _ _ _ hrec] at hp
    rcases elimFold_src _ _ _ p hp with h | ⟨q, hq, hqp, hthr⟩
    · exact h
    · exfalso
      obtain ⟨q1, q2⟩ := q
      have hq1 : q1 = p := hqp
      rw [hq1] at hq
      have := nodup_keys_unique res.rankings hnd p pos q2 hmem hq
      have hthr2 : ffaThreshold s.opts < q2 := hthr
      omega

/-- Witness for C8: a concrete four-participant match; participant 1 placed
first (at the threshold) and is not eliminated, while the pre-existing
eliminated set (empty) is carried over. -/
theorem ffaEliminated_monotone_witness :
    ffaRecord ffaW0 0 ffaResW = .ok ffaW1 ∧
      (ffaResW.rankings.map Prod.fst).Nodup ∧
      (1, 1) ∈ ffaResW.rankings ∧
      1 ≤ ffaThreshold ffaW0.opts ∧
      (1 ∈ ffaW1.eliminatedParticipants → 1 ∈ ffaW0.eliminatedParticipants) ∧
      (∀ x ∈ ffaW0.eliminatedParticipants, x ∈ ffaW1.eliminatedParticipants) :=
  ⟨by decide, by decide, by decide, by decide,
    fun h => ffaEliminated_monotone.2 ffaW0 0 ffaResW ffaW1 1 1 (by decide)
      (by decide) (by decide) (by decide) h,
    ffaEliminated_monotone.1 ffaW0 ffaW1
      (Relation.ReflTransGen.single ⟨0, ffaResW, by decide⟩)⟩

/-- C10: `export()` is not observationally pure: it sets the engine's
`updatedAt` to the call instant (via `touch`) before serializing and changes
no other field, and two consecutive `export()` calls on an otherwise
untouched engine produce snapshots that differ only in the `updatedAt`
field. -/
theorem btExport_updates_only_updatedAt {σ τ : Type} (g : σ → τ)
    (s : EngineState σ) (t1 t2 : Nat) :
    (btExport g s t1).2.updatedAt = t1 ∧
      (btExport g s t1).2.id = s.id ∧
      (btExport g s t1).2.name = s.name ∧
      (btExport g s t1).2.createdAt = s.createdAt ∧
      (btExport g s t1).2.rest = s.rest ∧
      (btExport g s t1).1 = btExportState g { s with updatedAt := t1 } ∧
      (btExport g (btExport g s t1).2 t2).1 =
        { (btExport g s t1).1 with updatedAt := t2 } :=
  ⟨rfl, rfl, rfl, rfl, rfl, rfl, rfl⟩

theorem find?_eq_head_filter {α : Type} (p : α → Bool) :
    ∀ l : List α, l.find? p = (l.filter p).head? := by
  intro l
  induction l with
  | nil => rfl
  | cons x rest ih =>
      by_cases h : p x
      · simp [List.find?_cons, List.filter_cons, h]
      · simp only [List.find?_cons, List.filter_cons]
        rw [if_neg h]
        simp only [Bool.not_eq_true] at h
        rw [h]
        exact ih

theorem find_map_id_filter (sorted : List (ParticipantR × SwScore))
    (pred : Nat → Bool) :
    ((sorted.find? (fun sp => pred sp.1.id)).map (fun sp => sp.1.id)) =
      ((sorted.map (fun sp => sp.1.id)).filter pred).head? := by
  induction sorted with
  | nil => rfl
  | cons sp rest ih =>
      by_cases h : pred sp.1.id
      · simp [List.find?_cons, List.filter_cons, h]
      · simp only [List.find?_cons, List.map_cons, List.filter_cons]
        rw [if_neg h]
        simp only [Bool.not_eq_true] at h
        rw [h]
        exact ih

theorem find_self_by_id :
    ∀ (sorted : List (ParticipantR × SwScore)),
      ((sorted.map (fun sp => sp.1.id)).Nodup) →
      ∀ sp1 ∈ sorted, sorted.find? (fun sp => sp.1.id == sp1.1.id) = some sp1 := by
  intro sorted
  induction sorted with
  | nil => intro _ sp1 h; simp at h
  | cons x rest ih =>
      intro hnd sp1 hmem
      rw [List.map_cons, List.nodup_cons] at hnd
      obtain ⟨hx, hrest⟩ := hnd
      rw [List.mem_cons] at hmem
      by_cases h : x.1.id = sp1.1.id
      · rcases hmem with hmem | hmem
        · subst hmem
          simp [List.find?_cons]
        · exfalso
          apply hx
          rw [h]
          exact List.mem_map.mpr ⟨sp1, hmem, rfl⟩
      · have hb : (x.1.id == sp1.1.id) = false := by simpa using h
        simp only [List.find?_cons, hb]
        rcases hmem with hmem | hmem
        · exact absurd (congrArg (fun q => q.1.id) hmem.symm) h
        · exact ih hrest sp1 hmem

theorem swHist_of_found (sorted : List (ParticipantR × SwScore))
    (hnd : ((sorted.map (fun sp => sp.1.id)).Nodup))
    (pred : ParticipantR × SwScore → Bool) (sp1 : ParticipantR × SwScore)
    (h : sorted.find? pred = some sp1) :
    swHist sorted sp1.1.id = sp1.2.opponentIds := by
  unfold swHist
  rw [find_self_by_id sorted hnd sp1 (List.mem_of_find?_eq_some h)]
  rfl

theorem contains_erase (unpaired : List Nat) (hnd : unpaired.Nodup) (x y : Nat) :
    ((unpaired.erase x).contains y) = (unpaired.contains y && y != x) := by
  by_cases h : y ∈ unpaired.erase x
  · have h2 := (List.Nodup.mem_erase_iff hnd).mp h
    have h1 : ((unpaired.erase x).contains y) = true := by simpa using h
    have hc : unpaired.contains y = true := by simpa using h2.2
    have hne : (y != x) = true := by simpa using h2.1
    rw [h1, hc, hne]
    rfl
  · have h2 : ¬ (y ≠ x ∧ y ∈ unpaired) := fun hc => h ((List.Nodup.mem_erase_iff hnd).mpr hc)
    have hcontains : ((unpaired.erase x).contains y) = false := by
      simpa using h
    rw [hcontains]
    by_cases hyx : y = x
    · simp [hyx]
    · have hyu : y ∉ unpaired := fun hm => h2 ⟨hyx, hm⟩
      simp [hyu]

theorem filter_contains_erase (ids unpaired : List Nat)
    (hnd : unpaired.Nodup) (x : Nat) :
    ids.filter (fun y => (unpaired.erase x).contains y) =
      (ids.filter (fun y => unpaired.contains y)).filter (fun y => y != x) := by
  rw [List.filter_filter]
  apply List.filter_congr
  intro y _
  rw [contains_erase unpaired hnd x y]
  rw [Bool.and_comm]

theorem filter_ne_head (p1 : Nat) (rest : List Nat)
    (hnd : (p1 :: rest).Nodup) :
    (p1 :: rest).filter (fun y => y != p1) = rest := by
  rw [List.nodup_cons] at hnd
  rw [List.filter_cons]
  rw [if_neg (by simp)]
  apply List.filter_eq_self.mpr
  intro a ha
  have : a ≠ p1 := fun h => hnd.1 (h ▸ ha)
  simpa using this

theorem smapGet_set_self (m : List (Nat × SwScore)) (k : Nat) (v : SwScore) :
    swGet (smapSet m k v) k = v := by
  induction m with
  | nil => simp [smapSet, swGet, List.lookup]
  | cons kv rest ih =>
      obtain ⟨k', v'⟩ := kv
      by_cases h : k' = k
      · simp [smapSet, h, swGet, List.lookup]
      · rw [smapSet]
        rw [if_neg h]
        rw [swGet, List.lookup]
        have hb : (k == k') = false := beq_eq_false_iff_ne.mpr (fun hc => h hc.symm)
        rw [hb]
        exact ih

theorem swPairSpec_cons_some (sorted : List (ParticipantR × SwScore))
    (f p1 q : Nat) (rest : List Nat) (opp : Nat)
    (h : (q :: rest).find? (fun c => !((swHist sorted p1).contains c)) = some opp) :
    swPairSpec sorted (f + 1) (p1 :: q :: rest) =
      (p1, opp) :: swPairSpec sorted f ((q :: rest).erase opp) := by
  have hu : swPairSpec sorted (f + 1) (p1 :: q :: rest) =
      (match (q :: rest).find? (fun c => !((swHist sorted p1).contains c)) with
       | some o => (p1, o) :: swPairSpec sorted f ((q :: rest).erase o)
       | none => (p1, q) :: swPairSpec sorted f rest) := rfl
  rw [hu, h]

theorem swPairSpec_cons_none (sorted : List (ParticipantR × SwScore))
    (f p1 q : Nat) (rest : List Nat)
    (h : (q :: rest).find? (fun c => !((swHist sorted p1).contains c)) = none) :
    swPairSpec sorted (f + 1) (p1 :: q :: rest) =
      (p1, q) :: swPairSpec sorted f rest := by
  have hu : swPairSpec sorted (f + 1) (p1 :: q :: rest) =
      (match (q :: rest).find? (fun c => !((swHist sorted p1).contains c)) with
       | some o => (p1, o) :: swPairSpec sorted f ((q :: rest).erase o)
       | none => (p1, q) :: swPairSpec sorted f rest) := rfl
  rw [hu, h]

theorem swPairLoopCode_eq_spec :
    ∀ (fuel : Nat) (sorted : List (ParticipantR × SwScore)) (unpaired : List Nat),
      ((sorted.map (fun sp => sp.1.id)).Nodup) →
      unpaired.Nodup →
      (∀ x ∈ unpaired, x ∈ sorted.map (fun sp => sp.1.id)) →
      (swPairLoopCode sorted fuel unpaired).1 =
        swPairSpec sorted fuel
          ((sorted.map (fun sp => sp.1.id)).filter (fun y => unpaired.contains y)) := by
  intro fuel
  induction fuel with
  | zero => intro sorted unpaired _ _ _; rfl
  | succ f ih =>
      intro sorted unpaired hids hnd hsub
      have hUnodup : ((sorted.map (fun sp => sp.1.id)).filter
          (fun y => unpaired.contains y)).Nodup := hids.filter _
      have hUperm : ((sorted.map (fun sp => sp.1.id)).filter
          (fun y => unpaired.contains y)).Perm unpaired := by
        apply (List.perm_ext_iff_of_nodup hUnodup hnd).mpr
        intro a
        constructor
        · intro ha
          have := (List.mem_filter.mp ha).2
          simpa using this
        · intro ha
          exact List.mem_filter.mpr ⟨hsub a ha, by simpa using ha⟩
      have hUlen : ((sorted.map (fun sp => sp.1.id)).filter
          (fun y => unpaired.contains y)).length = unpaired.length := hUperm.length_eq
      by_cases hle : unpaired.length ≤ 1
      · rw [swPairLoopCode, if_pos hle]
        rcases hU2 : (sorted.map (fun sp => sp.1.id)).filter
            (fun y => unpaired.contains y) with _ | ⟨a, t⟩
        · rw [hU2]; rfl
        · have ht : t = [] := by
            rw [hU2] at hUlen
            simp only [List.length_cons] at hUlen
            have : t.length = 0 := by omega
            exact List.length_eq_zero.mp this
          subst ht
          rw [hU2]; rfl
      · -- at least two unpaired participants
        have hU2 : 2 ≤ ((sorted.map (fun sp => sp.1.id)).filter
            (fun y => unpaired.contains y)).length := by omega
        rcases hUeq : (sorted.map (fun sp => sp.1.id)).filter
            (fun y => unpaired.contains y) with _ | ⟨p1, U'⟩
        · rw [hUeq] at hU2; simp at hU2
        · have hU'len : U'.length + 1 = unpaired.length := by
            rw [hUeq] at hUlen
            simpa using hUlen
          have hUnodup' : (p1 :: U').Nodup := by rw [← hUeq]; exact hUnodup
          -- the first scan of sortedParticipants yields the head of the
          -- sorted-order unpaired sublist
          have hfind1 := find_map_id_filter sorted (fun y => unpaired.contains y)
          rw [hUeq] at hfind1
          rcases hf1 : sorted.find? (fun sp => unpaired.contains sp.1.id) with _ | sp1
          · rw [hf1] at hfind1; cases hfind1
          · rw [hf1] at hfind1
            have hid1 : sp1.1.id = p1 := by simpa using hfind1
            have hhist : swHist sorted p1 = sp1.2.opponentIds := by
              rw [← hid1]
              exact swHist_of_found sorted hids _ sp1 hf1
            -- the filtered pool after deleting p1
            have hrest : (sorted.map (fun sp => sp.1.id)).filter
                (fun y => (unpaired.erase p1).contains y) = U' := by
              rw [filter_contains_erase _ unpaired hnd p1, hUeq]
              exact filter_ne_head p1 U' hUnodup'
            -- candidate scan: first non-repeat opponent in sorted order
            have hfind2 := find_map_id_filter sorted
              (fun y => (unpaired.erase p1).contains y
                && !(sp1.2.opponentIds.contains y))
            have hsplit : (sorted.map (fun sp => sp.1.id)).filter
                (fun y => (unpaired.erase p1).contains y
                  && !(sp1.2.opponentIds.contains y)) =
                U'.filter (fun y => !(sp1.2.opponentIds.contains y)) := by
              rw [← hrest, List.filter_filter]
              apply List.filter_congr
              intro y _
              rw [Bool.and_comm]
            rw [hsplit] at hfind2
            have hspecfind : U'.find? (fun c => !((swHist sorted p1).contains c)) =
                (U'.filter (fun y => !(sp1.2.opponentIds.contains y))).head? := by
              rw [hhist]
              exact find?_eq_head_filter _ U'
            -- align the two step results
            have hU'ne : U' ≠ [] := by
              intro hc
              rw [hc] at hU'len
              simp only [List.length_nil] at hU'len
              omega
            have hU'nodup : U'.Nodup := by
              rw [hUeq] at hUnodup
              exact (List.nodup_cons.mp hUnodup).2
            rw [swPairLoopCode, if_neg hle, hf1]
            obtain ⟨q, U'', hU'eq⟩ : ∃ q U'', U' = q :: U'' := by
              rcases U' with _ | ⟨q, t⟩
              · exact absurd rfl hU'ne
              · exact ⟨q, t, rfl⟩
            rw [hUeq, hU'eq]
            rcases hcand : (U'.filter (fun y => !(sp1.2.opponentIds.contains y))).head?
              with _ | opp
            -- fallback: every remaining candidate is already in the history
            · rw [hcand] at hfind2
              rcases hcf : sorted.find? (fun sp => (unpaired.erase p1).contains sp.1.id
                  && !(sp1.2.opponentIds.contains sp.1.id)) with _ | o
              · -- the fallback scan takes the first remaining unpaired participant
                have hfb := find_map_id_filter sorted
                  (fun y => (unpaired.erase p1).contains y)
                rw [hrest, hU'eq] at hfb
                rcases hfbf : sorted.find? (fun sp =>
                    (unpaired.erase p1).contains sp.1.id) with _ | o2
                · rw [hfbf] at hfb; cases hfb
                · rw [hfbf] at hfb
                  have ho2 : o2.1.id = q := by simpa using hfb
                  have hspecnone : (q :: U'').find?
                      (fun c => !((swHist sorted p1).contains c)) = none := by
                    rw [← hU'eq, hspecfind, hcand]
                  rw [swPairSpec_cons_none sorted f p1 q U'' hspecnone]
                  simp only [hid1, hcf, hfbf, Option.map_some', ho2]
                  have hrec := ih sorted ((unpaired.erase p1).erase q)
                    hids ((hnd.erase p1).erase q)
                    (fun x hx => hsub x
                      (List.mem_of_mem_erase (List.mem_of_mem_erase hx)))
                  have hfilter2 : (sorted.map (fun sp => sp.1.id)).filter
                      (fun y => ((unpaired.erase p1).erase q).contains y) = U'' := by
                    rw [filter_contains_erase _ (unpaired.erase p1) (hnd.erase p1) q,
                      hrest, hU'eq]
                    apply filter_ne_head q U''
                    rw [← hU'eq]
                    exact hU'nodup
                  rw [hfilter2] at hrec
                  rw [hrec]
              · -- contradiction: the candidate scan found o but the filtered
                -- pool is empty
                exfalso
                rw [hcf] at hfind2
                cases hfind2
            -- primary case: pair with the first non-repeat candidate
            · rcases hcf : sorted.find? (fun sp => (unpaired.erase p1).contains sp.1.id
                  && !(sp1.2.opponentIds.contains sp.1.id)) with _ | o
              · exfalso
                rw [hcf, hcand] at hfind2
                cases hfind2
              · rw [hcf, hcand] at hfind2
                have ho : o.1.id = opp := by simpa using hfind2
                have hspecsome : (q :: U'').find?
                    (fun c => !((swHist sorted p1).contains c)) = some opp := by
                  rw [← hU'eq, hspecfind, hcand]
                rw [swPairSpec_cons_some sorted f p1 q U'' opp hspecsome, ← hU'eq]
                simp only [hid1, hcf, Option.map_some', ho]
                have hrec := ih sorted ((unpaired.erase p1).erase opp)
                  hids ((hnd.erase p1).erase opp)
                  (fun x hx => hsub x
                    (List.mem_of_mem_erase (List.mem_of_mem_erase hx)))
                have hfilter2 : (sorted.map (fun sp => sp.1.id)).filter
                    (fun y => ((unpaired.erase p1).erase opp).contains y) =
                    U'.erase opp := by
                  rw [filter_contains_erase _ (unpaired.erase p1) (hnd.erase p1) opp,
                    hrest]
                  exact (List.Nodup.erase_eq_filter hU'nodup opp).symm
                rw [hfilter2] at hrec
                rw [hrec]

theorem swPairLoopCode_leftover (fuel : Nat) :
    ∀ (sorted : List (ParticipantR × SwScore)) (unpaired : List Nat),
      unpaired.Nodup →
      (∀ x ∈ unpaired, x ∈ sorted.map (fun sp => sp.1.id)) →
      unpaired.length ≤ fuel →
      (swPairLoopCode sorted fuel unpaired).2.length = unpaired.length % 2 := by
  induction fuel with
  | zero =>
      intro sorted unpaired hnd hsub hf
      have h0 : unpaired.length = 0 := Nat.le_zero.mp hf
      rw [swPairLoopCode]
      show unpaired.length = unpaired.length % 2
      omega
  | succ f ih =>
      intro sorted unpaired hnd hsub hf
      by_cases hle : unpaired.length ≤ 1
      · rw [swPairLoopCode, if_pos hle]
        show unpaired.length = unpaired.length % 2
        omega
      · have h2 : 2 ≤ unpaired.length := by omega
        rcases hf1 : sorted.find? (fun sp => unpaired.contains sp.1.id) with _ | sp1
        · exfalso
          rcases hun : unpaired with _ | ⟨x, rest⟩
          · rw [hun] at h2; simp at h2
          · have hx : x ∈ unpaired := by rw [hun]; exact List.mem_cons_self x rest
            obtain ⟨sp, hsp, hid⟩ := List.mem_map.mp (hsub x hx)
            have hno := List.find?_eq_none.mp hf1 sp hsp
            apply hno
            show unpaired.contains sp.1.id = true
            rw [hid]
            simpa using hx
        · have hp1 : sp1.1.id ∈ unpaired := by simpa using List.find?_some hf1
          have hlen1 : (unpaired.erase sp1.1.id).length = unpaired.length - 1 :=
            List.length_erase_of_mem hp1
          rw [swPairLoopCode, if_neg hle, hf1]
          rcases hcf : sorted.find? (fun sp =>
              (unpaired.erase sp1.1.id).contains sp.1.id
                && !(sp1.2.opponentIds.contains sp.1.id)) with _ | o
          · rcases hcf2 : sorted.find? (fun sp =>
                (unpaired.erase sp1.1.id).contains sp.1.id) with _ | o2
            · exfalso
              rcases hun1 : unpaired.erase sp1.1.id with _ | ⟨x, rest⟩
              · rw [hun1] at hlen1; simp only [List.length_nil] at hlen1; omega
              · have hx : x ∈ unpaired.erase sp1.1.id := by
                  rw [hun1]; exact List.mem_cons_self x rest
                obtain ⟨sp, hsp, hid⟩ :=
                  List.mem_map.mp (hsub x (List.mem_of_mem_erase hx))
                have hno := List.find?_eq_none.mp hcf2 sp hsp
                apply hno
                show (unpaired.erase sp1.1.id).contains sp.1.id = true
                rw [hid]
                simpa using hx
            · have ho2 : o2.1.id ∈ unpaired.erase sp1.1.id := by
                simpa using List.find?_some hcf2
              have hlen2 : ((unpaired.erase sp1.1.id).erase o2.1.id).length =
                  unpaired.length - 2 := by
                rw [List.length_erase_of_mem ho2, hlen1]
                omega
              simp only [hcf, hcf2, Option.map_some']
              rw [ih sorted ((unpaired.erase sp1.1.id).erase o2.1.id)
                ((hnd.erase sp1.1.id).erase o2.1.id)
                (fun x hx => hsub x
                  (List.mem_of_mem_erase (List.mem_of_mem_erase hx)))
                (by omega), hlen2]
              omega
          · have hoc : (unpaired.erase sp1.1.id).contains o.1.id = true
                ∧ !(sp1.2.opponentIds.contains o.1.id) = true := by
              have := List.find?_some hcf
              simpa [Bool.and_eq_true] using this
            have ho : o.1.id ∈ unpaired.erase sp1.1.id := by
              simpa using hoc.1
            have hlen2 : ((unpaired.erase sp1.1.id).erase o.1.id).length =
                unpaired.length - 2 := by
              rw [List.length_erase_of_mem ho, hlen1]
              omega
            simp only [hcf]
            rw [ih sorted ((unpaired.erase sp1.1.id).erase o.1.id)
              ((hnd.erase sp1.1.id).erase o.1.id)
              (fun x hx => hsub x
                (List.mem_of_mem_erase (List.mem_of_mem_erase hx)))
              (by omega), hlen2]
            omega

theorem swRoundProjMap (l : List MatchR) (base : Nat) :
    (l.enum.map (fun e => { e.2 with matchNumber := some (base + e.1 + 1) })).map
        (fun m => (m.participantIds, m.status)) =
      l.map (fun m => (m.participantIds, m.status)) := by
  rw [List.map_map]
  have hc : ((fun m : MatchR => (m.participantIds, m.status)) ∘
      (fun e : Nat × MatchR =>
        { e.2 with matchNumber := some (base + e.1 + 1) })) =
      ((fun m : MatchR => (m.participantIds, m.status)) ∘ Prod.snd) := rfl
  rw [hc, ← List.map_map, List.enum_map_snd]

/-- C5: for every field, Swiss round generation appends one round whose pair
matches are exactly the pairs of the specified rule — repeatedly the
top-ranked unpaired participant is paired with the highest-sorted unpaired
participant not in their opponent history, falling back to the first remaining
unpaired participant when every candidate is a repeat — as two-participant
pending matches in order, followed by a single-participant pre-completed bye
match exactly when the field is odd; and on an odd field the bye recipient is
credited pointsPerBye match points and one extra match played. -/
theorem swissRound_pairing_and_bye (s : SwissState)
    (hids : ((swSorted s).map (fun sp => sp.1.id)).Nodup)
    (hrun : s.currentRound < s.numberOfRounds) :
    ∃ (rm : List MatchR) (byeId : Nat),
      (swGenerateNextRound s).rounds = s.rounds ++ [rm] ∧
      rm.map (fun m => (m.participantIds, m.status)) =
        (swPairSpec (swSorted s) s.participants.length
            ((swSorted s).map (fun sp => sp.1.id))).map
          (fun p => ([p.1, p.2], MStatus.pending)) ++
          (if s.participants.length % 2 = 1
            then [([byeId], MStatus.completed)] else []) ∧
      (s.participants.length % 2 = 1 →
        (swGet (swGenerateNextRound s).participantScores byeId).matchPoints =
          (swGet s.participantScores byeId).matchPoints + s.opts.pointsPerBye ∧
        (swGet (swGenerateNextRound s).participantScores byeId).matchesPlayed =
          (swGet s.participantScores byeId).matchesPlayed + 1) := by
  have hif : ¬ (s.numberOfRounds ≤ s.currentRound) := by omega
  have hlen_ids : ((swSorted s).map (fun sp => sp.1.id)).length
      = s.participants.length := by
    rw [List.length_map, swSorted,
      (sortJS_perm (fun a b => decide (swCmp a b ≤ 0))
        (s.participants.map (fun p => (p, swGet s.participantScores p.id)))).length_eq,
      List.length_map]
  have hfilter : ((swSorted s).map (fun sp => sp.1.id)).filter
      (fun y => ((swSorted s).map (fun sp => sp.1.id)).contains y)
      = (swSorted s).map (fun sp => sp.1.id) := by
    apply List.filter_eq_self.mpr
    intro a ha
    simpa using ha
  have hpairs : (swPairLoopCode (swSorted s) s.participants.length
      ((swSorted s).map (fun sp => sp.1.id))).1 =
      swPairSpec (swSorted s) s.participants.length
        ((swSorted s).map (fun sp => sp.1.id)) := by
    have h := swPairLoopCode_eq_spec s.participants.length (swSorted s)
      ((swSorted s).map (fun sp => sp.1.id)) hids hids (fun x hx => hx)
    rw [hfilter] at h
    exact h
  have hleft : (swPairLoopCode (swSorted s) s.participants.length
      ((swSorted s).map (fun sp => sp.1.id))).2.length
      = s.participants.length % 2 := by
    have h := swPairLoopCode_leftover s.participants.length (swSorted s)
      ((swSorted s).map (fun sp => sp.1.id)) hids (fun x hx => hx)
      (le_of_eq hlen_ids)
    rw [hlen_ids] at h
    exact h
  by_cases hodd : s.participants.length % 2 = 1
  · -- odd field: pair matches plus exactly one pre-completed bye
    have hleft1 : (swPairLoopCode (swSorted s) s.participants.length
        ((swSorted s).map (fun sp => sp.1.id))).2.length = 1 := by
      rw [hleft, hodd]
    simp only [swGenerateNextRound, if_neg hif]
    simp only [if_pos hleft1]
    refine ⟨_, (swPairLoopCode (swSorted s) s.participants.length
      ((swSorted s).map (fun sp => sp.1.id))).2.headD 0, rfl, ?_, ?_⟩
    · rw [if_pos hodd]
      rw [swRoundProjMap, List.map_append, List.map_map]
      have hc1 : ((fun m : MatchR => (m.participantIds, m.status)) ∘
          (fun e : Nat × (Nat × Nat) => MatchR.mk (s.nextId + e.1) .pending
            [e.2.1, e.2.2] none (some (s.rounds.length + 1)) none)) =
          ((fun p : Nat × Nat => ([p.1, p.2], MStatus.pending)) ∘ Prod.snd) := rfl
      rw [hc1, ← List.map_map, List.enum_map_snd, hpairs]
      rfl
    · intro _
      constructor
      · rw [smapGet_set_self]
      · rw [smapGet_set_self]
  · -- even field: the leftover pool is empty, the round is the pair matches
    have hne1 : ¬ ((swPairLoopCode (swSorted s) s.participants.length
        ((swSorted s).map (fun sp => sp.1.id))).2.length = 1) := by
      omega
    simp only [swGenerateNextRound, if_neg hif]
    simp only [if_neg hne1]
    refine ⟨_, 0, rfl, ?_, ?_⟩
    · rw [if_neg hodd, List.append_nil]
      rw [swRoundProjMap, List.map_map]
      have hc1 : ((fun m : MatchR => (m.participantIds, m.status)) ∘
          (fun e : Nat × (Nat × Nat) => MatchR.mk (s.nextId + e.1) .pending
            [e.2.1, e.2.2] none (some (s.rounds.length + 1)) none)) =
          ((fun p : Nat × Nat => ([p.1, p.2], MStatus.pending)) ∘ Prod.snd) := rfl
      rw [hc1, ← List.map_map, List.enum_map_snd, hpairs]
    · intro h
      exact absurd h hodd

theorem swissRound_pairing_and_bye_witness :
    ∃ (rm : List MatchR) (byeId : Nat),
      (swGenerateNextRound swW).rounds = swW.rounds ++ [rm] ∧
      rm.map (fun m => (m.participantIds, m.status)) =
        (swPairSpec (swSorted swW) swW.participants.length
            ((swSorted swW).map (fun sp => sp.1.id))).map
          (fun p => ([p.1, p.2], MStatus.pending)) ++
          (if swW.participants.length % 2 = 1
            then [([byeId], MStatus.completed)] else []) ∧
      (swW.participants.length % 2 = 1 →
        (swGet (swGenerateNextRound swW).participantScores byeId).matchPoints =
          (swGet swW.participantScores byeId).matchPoints + swW.opts.pointsPerBye ∧
        (swGet (swGenerateNextRound swW).participantScores byeId).matchesPlayed =
          (swGet swW.participantScores byeId).matchesPlayed + 1) :=
  swissRound_pairing_and_bye swW (by decide) (by decide)
